import Mathlib

/-!
# JDFTx analytic Coulomb and exchange kernels

A shallow embedding of `core/Coulomb_internal.h`.

Modelling conventions
* `double` is modelled by `ℝ`: rounding, NaN and infinities are outside this model.
  `sqrt`, `exp`, `cos` are `Real.sqrt`, `Real.exp`, `Real.cos`, `M_PI` is `Real.pi`,
  and the library `erf` is `(2/√π) ∫₀ˣ exp(-s²) ds`.
* Two functor bodies and `erfcTilde` are embedded a second time on IEEE-754 binary64
  numbers (`_double`), as relations between the inputs and the values the body can return;
  see the section on binary64 arithmetic. A claim that holds over `ℝ` but not of the values
  the program returns is settled against those.
* `vector3<int>` is `Fin 3 → ℤ`, `matrix3<>` is `Fin 3 → Fin 3 → ℝ`; a direction index
  `iDir` is a `Fin 3`.
* The C++ truth test `Gsq ? a : b` on a double is `if Gsq ≠ 0 then a else b`.
* Each functor `struct X_calc` is a structure with the same fields and a function
  `X_calc.call` for its `operator()`.
* Where a claim speaks about which operations are *evaluated* (a division, a call of the
  spline evaluator), the same body is embedded a second time with that operation
  instrumented (`_checked`, `_traced`); the instrumented body is tied to the plain one.
-/

namespace JDFTx

/-! ## Data model -/

/-- Integer reciprocal-lattice index, `vector3<int>`. -/
abbrev Vector3Int : Type := Fin 3 → ℤ

/-- Real 3×3 matrix, `matrix3<>`. -/
abbrev Matrix3 : Type := Fin 3 → Fin 3 → ℝ

/-- Modelled from the spec: `matrix3<>::metric_length_squared` lives in `core/matrix3.h`,
which is not among the sources; the spec describes it as the quadratic form
`iG^T · GGT · iG` of the metric on the integer index. -/
def metric_length_squared (GGT : Matrix3) (iG : Vector3Int) : ℝ :=
  ∑ i : Fin 3, ∑ j : Fin 3, (iG i : ℝ) * GGT i j * (iG j : ℝ)

/-- The quadratic form of a matrix on a real vector (used to say "positive semi-definite"). -/
def quadForm (GGT : Matrix3) (v : Fin 3 → ℝ) : ℝ :=
  ∑ i : Fin 3, ∑ j : Fin 3, v i * GGT i j * v j

/-- The data-model invariant on the metric: symmetric positive semi-definite. -/
def IsSymmPSD (GGT : Matrix3) : Prop :=
  (∀ i j, GGT i j = GGT j i) ∧ ∀ v : Fin 3 → ℝ, 0 ≤ quadForm GGT v

/-- The identity metric. -/
def identityMetric : Matrix3 := fun i j => if i = j then 1 else 0

/-- Division that reports a zero divisor: `none` stands for an evaluation of `a / 0`. -/
noncomputable def checkedDiv (a b : ℝ) : Option ℝ :=
  if b = 0 then none else some (a / b)

/-! ## Coulomb kernels -/

/-- Periodic coulomb interaction (4 pi/G^2): `struct CoulombPeriodic_calc`. -/
structure CoulombPeriodic_calc where

/-- The call operator `CoulombPeriodic_calc::operator()`. -/
noncomputable def CoulombPeriodic_calc.call (_c : CoulombPeriodic_calc)
    (iG : Vector3Int) (GGT : Matrix3) : ℝ :=
  let Gsq := metric_length_squared GGT iG
  if Gsq ≠ 0 then (4 * Real.pi) / Gsq else 0

/-- The call operator `CoulombPeriodic_calc::operator()` with its division instrumented. -/
noncomputable def CoulombPeriodic_calc.call_checked (_c : CoulombPeriodic_calc)
    (iG : Vector3Int) (GGT : Matrix3) : Option ℝ :=
  let Gsq := metric_length_squared GGT iG
  if Gsq ≠ 0 then checkedDiv (4 * Real.pi) Gsq else some 0

/-- Slab-truncated coulomb interaction: `struct CoulombSlab_calc`. -/
structure CoulombSlab_calc where
  iDir : Fin 3
  hlfL : ℝ

/-- The clamped in-plane wavevector `Gplane` computed by `CoulombSlab_calc::operator()`
(the two statements assigning `Gplane`). -/
noncomputable def CoulombSlab_calc.Gplane (c : CoulombSlab_calc)
    (iG : Vector3Int) (GGT : Matrix3) : ℝ :=
  let Gsq := metric_length_squared GGT iG
  let Gplane := Gsq - GGT c.iDir c.iDir * (iG c.iDir : ℝ) * (iG c.iDir : ℝ)
  if Gplane > 0 then Real.sqrt Gplane else 0

/-- The call operator `CoulombSlab_calc::operator()`. -/
noncomputable def CoulombSlab_calc.call (c : CoulombSlab_calc)
    (iG : Vector3Int) (GGT : Matrix3) : ℝ :=
  let Gsq := metric_length_squared GGT iG
  let Gplane := c.Gplane iG GGT
  (4 * Real.pi) *
    (if Gsq ≠ 0 then
      (1 - Real.exp (-Gplane * c.hlfL) * Real.cos (Real.pi * (iG c.iDir : ℝ))) / Gsq
     else -0.5 * c.hlfL * c.hlfL)

/-- Sphere-truncated coulomb interaction: `struct CoulombSpherical_calc`. -/
structure CoulombSpherical_calc where
  Rc : ℝ

/-- The call operator `CoulombSpherical_calc::operator()`. -/
noncomputable def CoulombSpherical_calc.call (c : CoulombSpherical_calc)
    (iG : Vector3Int) (GGT : Matrix3) : ℝ :=
  let Gsq := metric_length_squared GGT iG
  if Gsq ≠ 0 then (4 * Real.pi) * (1 - Real.cos (c.Rc * Real.sqrt Gsq)) / Gsq
  else (2 * Real.pi) * c.Rc * c.Rc

/-! ## Safe elementary functions -/

/-- The library error function, `erf(x) = (2/√π) ∫₀ˣ exp(-s²) ds`. -/
noncomputable def erf (x : ℝ) : ℝ :=
  2 / Real.sqrt Real.pi * ∫ s in (0 : ℝ)..x, Real.exp (-(s ^ 2))

/-- Compute erf(x)/x (with x~0 handled properly): `erf_by_x`. -/
noncomputable def erf_by_x (x : ℝ) : ℝ :=
  let xSq := x * x
  if xSq < 1e-6 then (1 / Real.sqrt Real.pi) * (2 - xSq * (2 / 3 + 0.2 * xSq))
  else erf x / x

/-! ## Exchange kernels -/

/-- Radial fourier transform of erfc(omega r)/r (not valid at G=0): `erfcTilde`. -/
noncomputable def erfcTilde (Gsq omegaSq : ℝ) : ℝ :=
  (4 * Real.pi) * (if omegaSq ≠ 0 then (1 - Real.exp (-0.25 * Gsq / omegaSq)) else 1) / Gsq

/-- Periodic exchange: `struct ExchangePeriodic_calc`. -/
structure ExchangePeriodic_calc where

/-- The call operator `ExchangePeriodic_calc::operator()`. -/
noncomputable def ExchangePeriodic_calc.call (_c : ExchangePeriodic_calc) (kSq : ℝ) : ℝ :=
  (4 * Real.pi) / kSq

/-- Erfc-screened periodic exchange: `struct ExchangePeriodicScreened_calc`. -/
structure ExchangePeriodicScreened_calc where
  inv4omegaSq : ℝ

/-- The constructor `ExchangePeriodicScreened_calc(double omega)`. -/
noncomputable def ExchangePeriodicScreened_calc.ctor (omega : ℝ) :
    ExchangePeriodicScreened_calc :=
  { inv4omegaSq := 0.25 / (omega * omega) }

/-- The call operator `ExchangePeriodicScreened_calc::operator()`. -/
noncomputable def ExchangePeriodicScreened_calc.call (c : ExchangePeriodicScreened_calc)
    (kSq : ℝ) : ℝ :=
  (4 * Real.pi) * (1 - Real.exp (-c.inv4omegaSq * kSq)) / kSq

/-- Spherical-truncated exchange: `struct ExchangeSpherical_calc`. -/
structure ExchangeSpherical_calc where
  Rc : ℝ

/-- The call operator `ExchangeSpherical_calc::operator()`. -/
noncomputable def ExchangeSpherical_calc.call (c : ExchangeSpherical_calc) (kSq : ℝ) : ℝ :=
  (4 * Real.pi) * (1 - Real.cos (c.Rc * Real.sqrt kSq)) / kSq

/-- Erfc-screened spherical-truncated exchange: `struct ExchangeSphericalScreened_calc`.
`Coeff` stands for the coefficient table behind `const double* coeff`. -/
structure ExchangeSphericalScreened_calc (Coeff : Type) where
  coeff : Coeff
  dGinv : ℝ
  nSamples : ℕ

/-- The call operator `ExchangeSphericalScreened_calc::operator()`. The spline evaluator
`QuinticSpline::value` (declared in `core/Bspline.h`, not among the sources) is the
parameter `value`. -/
noncomputable def ExchangeSphericalScreened_calc.call {Coeff : Type}
    (value : Coeff → ℝ → ℝ) (c : ExchangeSphericalScreened_calc Coeff) (kSq : ℝ) : ℝ :=
  let t := c.dGinv * Real.sqrt kSq
  if t ≥ (c.nSamples : ℝ) then 0 else value c.coeff t

/-- The call operator `ExchangeSphericalScreened_calc::operator()` with the calls of the
spline evaluator recorded: the second component lists the positions `t` at which `value`
was invoked. -/
noncomputable def ExchangeSphericalScreened_calc.call_traced {Coeff : Type}
    (value : Coeff → ℝ → ℝ) (c : ExchangeSphericalScreened_calc Coeff) (kSq : ℝ) :
    ℝ × List ℝ :=
  let t := c.dGinv * Real.sqrt kSq
  if t ≥ (c.nSamples : ℝ) then (0, []) else (value c.coeff t, [t])

/-! ## Further metrics and instrumented bodies -/

/-- A multiple `a·I` of the identity metric (a cubic reciprocal lattice). -/
def scalarMetric (a : ℝ) : Matrix3 := fun i j => if i = j then a else 0

/-- A symmetric positive definite metric whose direction 0 is not orthogonal to direction 1. -/
def shearMetric : Matrix3 := ![![1, 1, 0], ![1, 2, 0], ![0, 0, 1]]

/-- The two statements assigning `Gplane` in `CoulombSlab_calc::operator()` with the
arguments of `sqrt` recorded in the second component. -/
noncomputable def CoulombSlab_calc.Gplane_traced (c : CoulombSlab_calc)
    (iG : Vector3Int) (GGT : Matrix3) : ℝ × List ℝ :=
  let Gsq := metric_length_squared GGT iG
  let Gplane := Gsq - GGT c.iDir c.iDir * (iG c.iDir : ℝ) * (iG c.iDir : ℝ)
  if Gplane > 0 then (Real.sqrt Gplane, [Gplane]) else (0, [])

/-! ## Fluid components -/

/-- The component names `FluidComponent::Name` that `FluidComponent.cpp` mentions (the
enumeration itself is declared in `fluid/FluidComponent.h`). -/
inductive FluidComponent.Name
  | H2O | CHCl3 | CCl4 | CH3CN | DMC | EC | PC | DMF | THF | EthylEther | Chlorobenzene
  | Isobutanol | CarbonDisulfide | CustomSolvent | Sodium | CustomCation | CustomAnion
  | Chloride
  deriving DecidableEq

/-- The component kinds `FluidComponent::Type`. -/
inductive FluidComponent.ComponentType
  | Solvent | Cation | Anion
  deriving DecidableEq

/-- The function `FluidComponent::getType`; its `default:` branch is not reached by any of
the names above. -/
def FluidComponent.getType : FluidComponent.Name → FluidComponent.ComponentType
  | .H2O => .Solvent
  | .CHCl3 => .Solvent
  | .CCl4 => .Solvent
  | .CH3CN => .Solvent
  | .DMC => .Solvent
  | .EC => .Solvent
  | .PC => .Solvent
  | .DMF => .Solvent
  | .THF => .Solvent
  | .EthylEther => .Solvent
  | .Chlorobenzene => .Solvent
  | .Isobutanol => .Solvent
  | .CarbonDisulfide => .Solvent
  | .CustomSolvent => .Solvent
  | .Sodium => .Cation
  | .CustomCation => .Cation
  | .CustomAnion => .Anion
  | .Chloride => .Anion

/-- The method `FluidComponent::pureNbulk` on an object with fields `name` and `type`; a
thrown string is `Except.error`. The unit constants `mol` and `liter` (declared in a header
that is not among the sources) are parameters. -/
noncomputable def FluidComponent.pureNbulk (mol liter : ℝ) (name : FluidComponent.Name)
    (type : FluidComponent.ComponentType) (_T : ℝ) : Except String ℝ :=
  if type = .Solvent then
    match name with
    | .H2O => .ok 4.9383e-3
    | .CHCl3 => .ok 1.109e-3
    | .CCl4 => .ok 9.205e-4
    | .CH3CN => .ok 1.709e-3
    | .DMC => .ok 1.059e-3
    | .EC => .ok 1.339e-3
    | .PC => .ok 1.039e-3
    | .DMF => .ok 1.153e-3
    | .THF => .ok 1.100e-3
    | .EthylEther => .ok 8.5e-4
    | .Isobutanol => .ok 9.668e-4
    | .Chlorobenzene => .ok 8.74e-4
    | .CarbonDisulfide => .ok 1.48e-3
    | _ => .error "Not yet implemented."
  else .ok (1 * mol / liter)

/-! ## The constructor of `FluidComponent` -/

/-- The excess functionals `FluidComponent::Functional` that `FluidComponent.cpp` mentions. -/
inductive FluidComponent.Functional
  | ScalarEOS | BondedVoids | FittedCorrelations | MeanFieldLJ | FunctionalNone
  deriving DecidableEq

/-- The ideal-gas representations `FluidComponent::Representation`. -/
inductive FluidComponent.Representation
  | PsiAlpha | Pomega | MuEps
  deriving DecidableEq

/-- The translation modes `FluidComponent::TranslationMode`. -/
inductive FluidComponent.TranslationMode
  | LinearSpline | ConstantSpline | Fourier
  deriving DecidableEq

/-- The quadrature kinds `S2quadType`; the constructor only names `Quad7design_24`. -/
inductive S2quadType
  | Quad7design_24
  deriving DecidableEq

/-- A molecule site, `Molecule::Site`, with the fields the constructor assigns. -/
structure Molecule.Site where
  name : String
  atomicNumber : ℤ
  Rhs : ℝ
  Znuc : ℝ
  sigmaNuc : ℝ
  Zelec : ℝ
  aElec : ℝ
  alpha : ℝ
  aPol : ℝ
  positions : List (ℝ × ℝ × ℝ)

/-- A molecule, `Molecule`: its name and its sites in the order they were pushed. -/
structure Molecule where
  name : String
  sites : List Molecule.Site

/-- The equation-of-state objects the constructor creates, with their constructor arguments. -/
inductive ScalarEOS
  | JeffereyAustinEOS (T : ℝ)
  | TaoMasonEOS (T Tc Pc omega : ℝ)

/-- What the constructor uses from headers that are not among the sources: the unit constants,
the atomic numbers behind `AtomicSymbol`, the constants of `Fex_H2O_BondedVoids`, and the
constructor of `Molecule::Site` (its second argument is optional). -/
structure FluidConstants where
  Angstrom : ℝ
  Kelvin : ℝ
  KPascal : ℝ
  mmHg : ℝ
  mol : ℝ
  liter : ℝ
  symH : ℤ
  symC : ℤ
  symN : ℤ
  symO : ℤ
  symNa : ℤ
  symCl : ℤ
  RO : ℝ
  RV0 : ℝ
  TV : ℝ
  newSite : String → Option ℤ → Molecule.Site

/-- The data members of `FluidComponent` that its constructor initialises or assigns. The
pointer members `quad`, `trans`, `idealGas`, `fex` hold `none` for a null pointer. -/
structure FluidComponent where
  name : FluidComponent.Name
  type : FluidComponent.ComponentType
  functional : FluidComponent.Functional
  representation : FluidComponent.Representation
  s2quadType : S2quadType
  quad_nBeta : ℕ
  quad_nAlpha : ℕ
  quad_nGamma : ℕ
  translationMode : FluidComponent.TranslationMode
  epsBulk : ℝ
  Nbulk : ℝ
  pMol : ℝ
  epsInf : ℝ
  Pvap : ℝ
  sigmaBulk : ℝ
  Rvdw : ℝ
  Res : ℝ
  Nnorm : ℝ
  quad : Option Unit
  trans : Option Unit
  idealGas : Option Unit
  fex : Option Unit
  offsetIndep : ℕ
  offsetDensity : ℕ
  eos : Option ScalarEOS
  molecule : Molecule

/-- Vapor pressure from the Antoine equation: `antoinePvap`. -/
noncomputable def antoinePvap (U : FluidConstants) (T A B C : ℝ) : ℝ :=
  U.KPascal * (10 : ℝ) ^ (A - B * U.Kelvin / (C * U.Kelvin + T))

/-- The member initializer list of the constructor, given the value `Nbulk` that
`pureNbulk(T)` returned; `eos` and `molecule` are default-constructed. -/
def FluidComponent.initializerList (name : FluidComponent.Name)
    (functional : FluidComponent.Functional) (Nbulk : ℝ) : FluidComponent :=
  { name := name, type := FluidComponent.getType name, functional := functional,
    representation := .MuEps, s2quadType := .Quad7design_24,
    quad_nBeta := 0, quad_nAlpha := 0, quad_nGamma := 0, translationMode := .LinearSpline,
    epsBulk := 1, Nbulk := Nbulk, pMol := 0, epsInf := 1, Pvap := 0, sigmaBulk := 0,
    Rvdw := 0, Res := 0, Nnorm := 0, quad := none, trans := none, idealGas := none,
    fex := none, offsetIndep := 0, offsetDensity := 0,
    eos := none, molecule := { name := "", sites := [] } }

/-- One `case` group of a C++ `switch`: its labels, the statements up to the next label, and
whether those statements end in `break`. -/
structure CaseBlock (L σ : Type) where
  labels : List L
  body : σ → Except String σ
  endsInBreak : Bool

/-- Execution of a `switch` from a given group on: run the statements of the group and, unless
they end in `break`, fall through into the next group; after the last group comes `default`. -/
def runFrom {L σ : Type} (dflt : σ → Except String σ) :
    List (CaseBlock L σ) → σ → Except String σ
  | [], s => dflt s
  | b :: rest, s =>
    match b.body s with
    | .error e => .error e
    | .ok s2 => if b.endsInBreak then .ok s2 else runFrom dflt rest s2

/-- Execution of `switch(x)`: jump to the first group carrying the label `x`, or to `default`
when there is none, and run from there. -/
def runSwitch {L σ : Type} [DecidableEq L] (dflt : σ → Except String σ) (x : L) :
    List (CaseBlock L σ) → σ → Except String σ
  | [], s => dflt s
  | b :: rest, s => if x ∈ b.labels then runFrom dflt (b :: rest) s else runSwitch dflt x rest s

/-- The nuclear width of hydrogen, the local constant `sigmaNucH`. -/
noncomputable def sigmaNucH (U : FluidConstants) : ℝ := (1 / 6) * 1.20 * U.Angstrom

/-- The nuclear width of carbon, the local constant `sigmaNucC`. -/
noncomputable def sigmaNucC (U : FluidConstants) : ℝ := (1 / 6) * 1.70 * U.Angstrom

/-- The nuclear width of nitrogen, the local constant `sigmaNucN`. -/
noncomputable def sigmaNucN (U : FluidConstants) : ℝ := (1 / 6) * 1.55 * U.Angstrom

/-- The nuclear width of oxygen, the local constant `sigmaNucO`. -/
noncomputable def sigmaNucO (U : FluidConstants) : ℝ := (1 / 6) * 1.52 * U.Angstrom

/-- The nuclear width of chlorine, the local constant `sigmaNucCl`. -/
noncomputable def sigmaNucCl (U : FluidConstants) : ℝ := (1 / 6) * 1.75 * U.Angstrom

/-- The statements of `case H2O:`. Sites are shared pointers, so what is pushed onto
`molecule.sites` shows every later assignment to the site. -/
noncomputable def caseH2O (U : FluidConstants) (T : ℝ) (functional : FluidComponent.Functional)
    (s : FluidComponent) : Except String FluidComponent :=
  let rOH := 0.967 * U.Angstrom
  let thetaHOH := 104.2 * Real.pi / 180
  let siteO : Molecule.Site :=
    { U.newSite "O" (some U.symO) with
      Znuc := 6, sigmaNuc := sigmaNucO U, Zelec := 6.826, aElec := 0.32, alpha := 3.73,
      aPol := 0.32 }
  let siteH : Molecule.Site :=
    { U.newSite "H" (some U.symH) with
      Znuc := 1, sigmaNuc := sigmaNucH U, Zelec := 0.587, aElec := 0.31, alpha := 3.30,
      aPol := 0.39 }
  let siteO : Molecule.Site := { siteO with positions := siteO.positions ++ [(0, 0, 0)] }
  let siteH : Molecule.Site :=
    { siteH with
      positions := siteH.positions ++
        [(0, -rOH * Real.sin (0.5 * thetaHOH), rOH * Real.cos (0.5 * thetaHOH)),
         (0, rOH * Real.sin (0.5 * thetaHOH), rOH * Real.cos (0.5 * thetaHOH))] }
  let s1 : FluidComponent :=
    { s with
      epsBulk := 78.4, pMol := 0.92466, epsInf := 1.77,
      Pvap := antoinePvap U T 7.31549 1794.88 (-34.764), sigmaBulk := 4.62e-5,
      eos := some (.JeffereyAustinEOS T), Rvdw := 1.385 * U.Angstrom, Res := 1.42 }
  match functional with
  | .FittedCorrelations =>
    .ok { s1 with molecule := { name := "H2O", sites := s.molecule.sites ++ [siteO, siteH] } }
  | .ScalarEOS =>
    let siteO : Molecule.Site := { siteO with Rhs := 1.36 * U.Angstrom }
    .ok { s1 with molecule := { name := "H2O", sites := s.molecule.sites ++ [siteO, siteH] } }
  | .BondedVoids =>
    let siteO : Molecule.Site := { siteO with Rhs := U.RO }
    let siteV : Molecule.Site := U.newSite "V" none
    let siteV : Molecule.Site := { siteV with Rhs := U.RV0 * Real.exp (-T / U.TV) }
    let rOV := siteO.Rhs + siteV.Rhs
    let thetaVOV := Real.arccos (-1 / 3)
    let siteV : Molecule.Site :=
      { siteV with
        positions := siteV.positions ++
          [(-rOV * Real.sin (0.5 * thetaVOV), 0, -rOV * Real.cos (0.5 * thetaVOV)),
           (rOV * Real.sin (0.5 * thetaVOV), 0, -rOV * Real.cos (0.5 * thetaVOV))] }
    .ok { s1 with
          molecule := { name := "H2O", sites := s.molecule.sites ++ [siteO, siteH, siteV] } }
  | _ => .error "Unsupported excess functional for water.\n"

/-- The statements of `case CHCl3:`. -/
noncomputable def caseCHCl3 (U : FluidConstants) (T : ℝ) (s : FluidComponent) :
    Except String FluidComponent :=
  let zC := 0.523 * U.Angstrom
  let rCCl := 1.804 * U.Angstrom
  let rCH := 1.091 * U.Angstrom
  let thetaHCCl := 107.8 * Real.pi / 180
  let siteCenter : Molecule.Site :=
    { U.newSite "center" (some 0) with Rhs := 2.06 * U.Angstrom }
  let siteC : Molecule.Site :=
    { U.newSite "C" (some U.symC) with
      Znuc := 4, sigmaNuc := sigmaNucC U, Zelec := 4.256, aElec := 0.43, alpha := 6.05,
      aPol := 0.36 }
  let siteH : Molecule.Site :=
    { U.newSite "H" (some U.symH) with
      Znuc := 1, sigmaNuc := sigmaNucH U, Zelec := 0.756, aElec := 0.26, alpha := 9.13,
      aPol := 0.41 }
  let siteCl : Molecule.Site :=
    { U.newSite "Cl" (some U.symCl) with
      Znuc := 7, sigmaNuc := sigmaNucCl U, Zelec := 6.996, aElec := 0.44, alpha := 15.8,
      aPol := 0.46 }
  let siteCenter : Molecule.Site :=
    { siteCenter with positions := siteCenter.positions ++ [(0, 0, 0)] }
  let siteC : Molecule.Site := { siteC with positions := siteC.positions ++ [(0, 0, zC)] }
  let siteH : Molecule.Site :=
    { siteH with positions := siteH.positions ++ [(0, 0, zC + rCH)] }
  let siteCl : Molecule.Site :=
    { siteCl with
      positions := siteCl.positions ++
        [(0, rCCl * Real.sin thetaHCCl, zC + rCCl * Real.cos thetaHCCl),
         (Real.sqrt 0.75 * rCCl * Real.sin thetaHCCl, -0.5 * rCCl * Real.sin thetaHCCl,
            zC + rCCl * Real.cos thetaHCCl),
         (-Real.sqrt 0.75 * rCCl * Real.sin thetaHCCl, -0.5 * rCCl * Real.sin thetaHCCl,
            zC + rCCl * Real.cos thetaHCCl)] }
  .ok { s with
        epsBulk := 4.8069, pMol := 0.49091, epsInf := 2.09,
        Pvap := antoinePvap U T 5.96288 1106.94 (-54.598), sigmaBulk := 1.71e-5,
        eos := some (.TaoMasonEOS T (536.6 * U.Kelvin) (5328.68 * U.KPascal) 0.216),
        Rvdw := 2.53 * U.Angstrom, Res := 2.22,
        molecule :=
          { name := "CHCl3", sites := s.molecule.sites ++ [siteCenter, siteC, siteH, siteCl] } }

/-- The statements of `case CCl4:`. -/
noncomputable def caseCCl4 (U : FluidConstants) (T : ℝ) (s : FluidComponent) :
    Except String FluidComponent :=
  let rCCl := 1.801 * U.Angstrom
  let siteC : Molecule.Site :=
    { U.newSite "C" (some U.symC) with
      Znuc := 4, sigmaNuc := sigmaNucC U, Zelec := 4.980, aElec := 0.44, alpha := 5.24,
      aPol := 0.35, Rhs := 2.19 * U.Angstrom }
  let siteCl : Molecule.Site :=
    { U.newSite "Cl" (some U.symCl) with
      Znuc := 7, sigmaNuc := sigmaNucCl U, Zelec := 6.755, aElec := 0.44, alpha := 18.1,
      aPol := 0.47 }
  let siteC : Molecule.Site := { siteC with positions := siteC.positions ++ [(0, 0, 0)] }
  let siteCl : Molecule.Site :=
    { siteCl with
      positions := siteCl.positions ++
        [(0, 0, rCCl),
         (0, rCCl * (Real.sqrt 8 / 3), rCCl * (-1 / 3)),
         (Real.sqrt 0.75 * rCCl * (Real.sqrt 8 / 3), -0.5 * rCCl * (Real.sqrt 8 / 3),
            rCCl * (-1 / 3)),
         (-Real.sqrt 0.75 * rCCl * (Real.sqrt 8 / 3), -0.5 * rCCl * (Real.sqrt 8 / 3),
            rCCl * (-1 / 3))] }
  .ok { s with
        epsBulk := 2.238, pMol := 0, epsInf := 2.13,
        Pvap := antoinePvap U T 6.10445 1265.63 (-41.002), sigmaBulk := 1.68e-5,
        eos := some (.TaoMasonEOS T (556.4 * U.Kelvin) (4493 * U.KPascal) 0.194),
        Rvdw := 2.69 * U.Angstrom, Res := 1.90,
        molecule := { name := "CCl4", sites := s.molecule.sites ++ [siteC, siteCl] } }

/-- The statements of `case CH3CN:`. -/
noncomputable def caseCH3CN (U : FluidConstants) (T : ℝ) (s : FluidComponent) :
    Except String FluidComponent :=
  let zC2 := 0.165 * U.Angstrom
  let rCC := 1.462 * U.Angstrom
  let rCN := 1.161 * U.Angstrom
  let rCH := 1.098 * U.Angstrom
  let thetaCCH := 110.22 * Real.pi / 180
  let siteCenter : Molecule.Site :=
    { U.newSite "center" (some 0) with Rhs := 1.12 * U.Angstrom }
  let siteC1 : Molecule.Site :=
    { U.newSite "C1" (some U.symC) with
      Znuc := 4, sigmaNuc := sigmaNucC U, Zelec := 4.7128, aElec := 0.44, alpha := 4.49,
      aPol := 0.35 }
  let siteC2 : Molecule.Site :=
    { U.newSite "C2" (some U.symC) with
      Znuc := 4, sigmaNuc := sigmaNucC U, Zelec := 3.4832, aElec := 0.39, alpha := 7.18,
      aPol := 0.39 }
  let siteH : Molecule.Site :=
    { U.newSite "H" (some U.symH) with
      Znuc := 1, sigmaNuc := sigmaNucH U, Zelec := 0.7659, aElec := 0.28, alpha := 4.33,
      aPol := 0.37 }
  let siteN : Molecule.Site :=
    { U.newSite "N" (some U.symN) with
      Znuc := 5, sigmaNuc := sigmaNucN U, Zelec := 5.5063, aElec := 0.37, alpha := 5.85,
      aPol := 0.35 }
  let siteCenter : Molecule.Site :=
    { siteCenter with positions := siteCenter.positions ++ [(0, 0, 0)] }
  let siteC2 : Molecule.Site := { siteC2 with positions := siteC2.positions ++ [(0, 0, zC2)] }
  let siteC1 : Molecule.Site :=
    { siteC1 with positions := siteC1.positions ++ [(0, 0, zC2 - rCC)] }
  let siteN : Molecule.Site :=
    { siteN with positions := siteN.positions ++ [(0, 0, zC2 + rCN)] }
  let siteH : Molecule.Site :=
    { siteH with
      positions := siteH.positions ++
        [(0, rCH * Real.sin thetaCCH, zC2 - rCC + rCH * Real.cos thetaCCH),
         (Real.sqrt 0.75 * rCH * Real.sin thetaCCH, -0.5 * rCH * Real.sin thetaCCH,
            zC2 - rCC + rCH * Real.cos thetaCCH),
         (-Real.sqrt 0.75 * rCH * Real.sin thetaCCH, -0.5 * rCH * Real.sin thetaCCH,
            zC2 - rCC + rCH * Real.cos thetaCCH)] }
  .ok { s with
        epsBulk := 38.8, pMol := 1.58, epsInf := 1.81,
        Pvap := antoinePvap U T 6.52111 1492.375 (-24.208), sigmaBulk := 1.88e-5,
        eos := some (.TaoMasonEOS T (545.5 * U.Kelvin) (4830 * U.KPascal) 0.278),
        Rvdw := 2.12 * U.Angstrom, Res := 2.6,
        molecule :=
          { name := "CH3CN",
            sites := s.molecule.sites ++ [siteCenter, siteC1, siteC2, siteH, siteN] } }

/-- The statements of `case Sodium:`. -/
noncomputable def caseSodium (U : FluidConstants) (s : FluidComponent) :
    Except String FluidComponent :=
  let Rvdw := 1.16 * U.Angstrom
  let siteNa : Molecule.Site :=
    { U.newSite "Na" (some U.symNa) with
      Znuc := 9, sigmaNuc := (1 / 6) * Rvdw, Zelec := 8, aElec := 0.206 }
  let siteNa : Molecule.Site := { siteNa with positions := siteNa.positions ++ [(0, 0, 0)] }
  .ok { s with
        Rvdw := Rvdw, molecule := { name := "Na+", sites := s.molecule.sites ++ [siteNa] } }

/-- The statements of `case Chloride:`. -/
noncomputable def caseChloride (U : FluidConstants) (s : FluidComponent) :
    Except String FluidComponent :=
  let Rvdw := 1.67 * U.Angstrom
  let siteCl : Molecule.Site :=
    { U.newSite "Cl" (some U.symCl) with
      Znuc := 7, sigmaNuc := (1 / 6) * Rvdw, Zelec := 8, aElec := 0.438 }
  let siteCl : Molecule.Site := { siteCl with positions := siteCl.positions ++ [(0, 0, 0)] }
  .ok { s with
        Rvdw := Rvdw, molecule := { name := "Cl-", sites := s.molecule.sites ++ [siteCl] } }

/-- The statements of `case CarbonDisulfide:`; in the source they are not followed by a
`break`. -/
noncomputable def caseCarbonDisulfide (s : FluidComponent) : Except String FluidComponent :=
  .ok { s with epsBulk := 2.641, epsInf := 2.641, pMol := 0 }

/-- The `switch(name)` of the constructor that sets the physical parameters, group by group in
source order; only the group of `CarbonDisulfide` does not end in `break`. -/
noncomputable def parameterSwitch (U : FluidConstants) (T : ℝ)
    (functional : FluidComponent.Functional) :
    List (CaseBlock FluidComponent.Name FluidComponent) :=
  [ { labels := [.H2O], body := caseH2O U T functional, endsInBreak := true },
    { labels := [.CHCl3], body := caseCHCl3 U T, endsInBreak := true },
    { labels := [.CCl4], body := caseCCl4 U T, endsInBreak := true },
    { labels := [.CH3CN], body := caseCH3CN U T, endsInBreak := true },
    { labels := [.DMC],
      body := fun s => .ok { s with
        epsBulk := 3.1, pMol := 0.16, epsInf := 1.87, Pvap := 18 * U.mmHg,
        sigmaBulk := 2.05e-5 },
      endsInBreak := true },
    { labels := [.EC],
      body := fun s => .ok { s with
        epsBulk := 90.5, pMol := 2.88, epsInf := 2.00,
        Pvap := antoinePvap U T 6.05764 1705.267 (-102.261), sigmaBulk := 3.51e-5 },
      endsInBreak := true },
    { labels := [.PC],
      body := fun s => .ok { s with
        epsBulk := 64.0, pMol := 2.95, epsInf := 2.02,
        Pvap := antoinePvap U T 6.20181 1788.900 (-88.715), sigmaBulk := 2.88e-5 },
      endsInBreak := true },
    { labels := [.DMF],
      body := fun s => .ok { s with
        epsBulk := 38.0, pMol := 2.19, epsInf := 2.05,
        Pvap := antoinePvap U T 6.05286 1400.86 (-76.716), sigmaBulk := 2.26e-5 },
      endsInBreak := true },
    { labels := [.THF],
      body := fun s => .ok { s with
        epsBulk := 7.6, pMol := 0.90, epsInf := 1.98,
        Pvap := antoinePvap U T 6.12142 1203.11 (-46.795), sigmaBulk := 1.78e-5 },
      endsInBreak := true },
    { labels := [.EthylEther],
      body := fun s => .ok { s with
        epsBulk := 4.34, pMol := 0.487, epsInf := 1.82,
        Pvap := antoinePvap U T 6.96559 1071.54 227.774, sigmaBulk := 1.092e-5 },
      endsInBreak := true },
    { labels := [.Chlorobenzene],
      body := fun s => .ok { s with
        epsBulk := 5.69, pMol := 0.72, epsInf := 2.32,
        Pvap := antoinePvap U T 4.11083 1435.675 (-55.124), sigmaBulk := 2.1e-5 },
      endsInBreak := true },
    { labels := [.Isobutanol],
      body := fun s => .ok { s with
        epsBulk := 17.93, pMol := 0.646, epsInf := 1.949, sigmaBulk := 1.445e-5 },
      endsInBreak := true },
    { labels := [.CarbonDisulfide], body := caseCarbonDisulfide, endsInBreak := false },
    { labels := [.CustomCation], body := fun s => .ok s, endsInBreak := true },
    { labels := [.Sodium], body := caseSodium U, endsInBreak := true },
    { labels := [.CustomAnion], body := fun s => .ok s, endsInBreak := true },
    { labels := [.Chloride], body := caseChloride U, endsInBreak := true } ]

/-- The same `switch` with a `break` closing the group of `CarbonDisulfide`: the reading "as if
the case ended with a break". -/
noncomputable def parameterSwitch_withBreak (U : FluidConstants) (T : ℝ)
    (functional : FluidComponent.Functional) :
    List (CaseBlock FluidComponent.Name FluidComponent) :=
  (parameterSwitch U T functional).map
    (fun b => if FluidComponent.Name.CarbonDisulfide ∈ b.labels
      then { b with endsInBreak := true } else b)

/-- The constructor `FluidComponent::FluidComponent(name, T, functional)` over a given
`switch`: the initializer list (in which `pureNbulk(T)` may throw), then the `switch` with its
`default: throw`. -/
noncomputable def FluidComponent.construct
    (blocks : List (CaseBlock FluidComponent.Name FluidComponent)) (U : FluidConstants)
    (name : FluidComponent.Name) (T : ℝ) (functional : FluidComponent.Functional) :
    Except String FluidComponent :=
  match FluidComponent.pureNbulk U.mol U.liter name (FluidComponent.getType name) T with
  | .error e => .error e
  | .ok Nbulk =>
    runSwitch (fun _ => .error "Not yet implemented.") name blocks
      (FluidComponent.initializerList name functional Nbulk)

/-- The constructor `FluidComponent::FluidComponent(name, T, functional)` as written. -/
noncomputable def FluidComponent.ctor (U : FluidConstants) (name : FluidComponent.Name)
    (T : ℝ) (functional : FluidComponent.Functional) : Except String FluidComponent :=
  FluidComponent.construct (parameterSwitch U T functional) U name T functional

/-- The constructor with the `break` added after the statements of `case CarbonDisulfide:`. -/
noncomputable def FluidComponent.ctor_withBreak (U : FluidConstants)
    (name : FluidComponent.Name) (T : ℝ) (functional : FluidComponent.Functional) :
    Except String FluidComponent :=
  FluidComponent.construct (parameterSwitch_withBreak U T functional) U name T functional

/-! ## Binary64 arithmetic

The claims that speak of the value a functor returns are also read on IEEE-754 binary64
numbers. A finite `double` is a real of the form `m·2^e/2^1074` with `|m| < 2^53` and
`e ≤ 2045`; an operation returns a double nearest to its exact result, or an infinity when
the exact result reaches the overflow threshold. Ties are left open (either neighbour is
allowed), signed zeros are identified, and operations whose result is NaN or depends on the
sign of a zero have no result in the relations below. The library functions `sqrt`, `cos`
and `exp` are taken to be correctly rounded. -/

/-- A finite binary64 number. -/
def IsDouble (d : ℝ) : Prop :=
  ∃ (m : ℤ) (e : ℕ), |m| < 2 ^ 53 ∧ e ≤ 2045 ∧ d = (m : ℝ) * 2 ^ e / 2 ^ 1074

/-- The double `d` is a finite binary64 number nearest to the real `x`. -/
def IsNearestDouble (x d : ℝ) : Prop :=
  IsDouble d ∧ ∀ d2, IsDouble d2 → |x - d| ≤ |x - d2|

/-- The magnitude from which rounding to nearest overflows to an infinity. -/
def overflowThreshold : ℝ := 2 ^ 1024 - 2 ^ 970

/-- The values of a `double` that are told apart here. -/
inductive Double64
  | finite (x : ℝ)
  | posInf
  | negInf

/-- The double `r` is a result of rounding the exact value `x` to nearest. -/
def Rounds (x : ℝ) : Double64 → Prop
  | .finite d => |x| < overflowThreshold ∧ IsNearestDouble x d
  | .posInf => overflowThreshold ≤ x
  | .negInf => x ≤ -overflowThreshold

/-- Unary minus on doubles. -/
def Double64.neg : Double64 → Double64
  | .finite a => .finite (-a)
  | .posInf => .negInf
  | .negInf => .posInf

/-- The product `a * b` on doubles returns `r`. -/
def Double64.mul : Double64 → Double64 → Double64 → Prop
  | .finite a, .finite b, r => Rounds (a * b) r
  | .finite a, .posInf, r => (0 < a ∧ r = .posInf) ∨ (a < 0 ∧ r = .negInf)
  | .finite a, .negInf, r => (0 < a ∧ r = .negInf) ∨ (a < 0 ∧ r = .posInf)
  | .posInf, .finite b, r => (0 < b ∧ r = .posInf) ∨ (b < 0 ∧ r = .negInf)
  | .negInf, .finite b, r => (0 < b ∧ r = .negInf) ∨ (b < 0 ∧ r = .posInf)
  | .posInf, .posInf, r => r = .posInf
  | .posInf, .negInf, r => r = .negInf
  | .negInf, .posInf, r => r = .negInf
  | .negInf, .negInf, r => r = .posInf

/-- The quotient `a / b` on doubles returns `r`. -/
def Double64.div : Double64 → Double64 → Double64 → Prop
  | .finite a, .finite b, r => b ≠ 0 ∧ Rounds (a / b) r
  | .finite _, .posInf, r => r = .finite 0
  | .finite _, .negInf, r => r = .finite 0
  | .posInf, .finite b, r => (0 < b ∧ r = .posInf) ∨ (b < 0 ∧ r = .negInf)
  | .negInf, .finite b, r => (0 < b ∧ r = .negInf) ∨ (b < 0 ∧ r = .posInf)
  | .posInf, .posInf, _ => False
  | .posInf, .negInf, _ => False
  | .negInf, .posInf, _ => False
  | .negInf, .negInf, _ => False

/-- The difference `a - b` on doubles returns `r`. -/
def Double64.sub : Double64 → Double64 → Double64 → Prop
  | .finite a, .finite b, r => Rounds (a - b) r
  | .finite _, .posInf, r => r = .negInf
  | .finite _, .negInf, r => r = .posInf
  | .posInf, .finite _, r => r = .posInf
  | .negInf, .finite _, r => r = .negInf
  | .posInf, .negInf, r => r = .posInf
  | .negInf, .posInf, r => r = .negInf
  | .posInf, .posInf, _ => False
  | .negInf, .negInf, _ => False

/-- The library call `sqrt(a)` on doubles returns `r`. -/
noncomputable def Double64.sqrt : Double64 → Double64 → Prop
  | .finite a, r => 0 ≤ a ∧ Rounds (Real.sqrt a) r
  | .posInf, r => r = .posInf
  | .negInf, _ => False

/-- The library call `cos(a)` on doubles returns `r`. -/
noncomputable def Double64.cos : Double64 → Double64 → Prop
  | .finite a, r => Rounds (Real.cos a) r
  | .posInf, _ => False
  | .negInf, _ => False

/-- The library call `exp(a)` on doubles returns `r`. -/
noncomputable def Double64.exp : Double64 → Double64 → Prop
  | .finite a, r => Rounds (Real.exp a) r
  | .posInf, r => r = .posInf
  | .negInf, r => r = .finite 0

/-- The constant `M_PI` of `math.h`, the double `0x1.921fb54442d18p+1`. -/
noncomputable def M_PI : ℝ := 7074237752028440 / 2 ^ 51

/-- The call operator `CoulombSpherical_calc::operator()` on doubles: `r` is a value the body
returns. `metric_length_squared` (absent header) enters with its exact value, which must be
a double. -/
noncomputable def CoulombSpherical_calc.call_double (c : CoulombSpherical_calc)
    (iG : Vector3Int) (GGT : Matrix3) (r : Double64) : Prop :=
  let Gsq := metric_length_squared GGT iG
  IsDouble Gsq ∧
  if Gsq ≠ 0 then
    ∃ s y co u q p : Double64,
      Double64.sqrt (.finite Gsq) s ∧ Double64.mul (.finite c.Rc) s y ∧ Double64.cos y co ∧
      Double64.sub (.finite 1) co u ∧ Double64.mul (.finite 4) (.finite M_PI) q ∧
      Double64.mul q u p ∧ Double64.div p (.finite Gsq) r
  else
    ∃ q p : Double64,
      Double64.mul (.finite 2) (.finite M_PI) q ∧ Double64.mul q (.finite c.Rc) p ∧
      Double64.mul p (.finite c.Rc) r

/-- The constructor `ExchangePeriodicScreened_calc(double omega)` on doubles: `inv4omegaSq` is
a value it stores. -/
def ExchangePeriodicScreened_calc.ctor_double (omega : ℝ) (inv4omegaSq : Double64) : Prop :=
  ∃ w : Double64,
    Double64.mul (.finite omega) (.finite omega) w ∧ Double64.div (.finite 0.25) w inv4omegaSq

/-- The call operator `ExchangePeriodicScreened_calc::operator()` on doubles, on an object
whose field holds `inv4omegaSq`. -/
noncomputable def ExchangePeriodicScreened_calc.call_double (inv4omegaSq : Double64)
    (kSq : ℝ) (r : Double64) : Prop :=
  ∃ a e u q p : Double64,
    Double64.mul inv4omegaSq.neg (.finite kSq) a ∧ Double64.exp a e ∧
    Double64.sub (.finite 1) e u ∧ Double64.mul (.finite 4) (.finite M_PI) q ∧
    Double64.mul q u p ∧ Double64.div p (.finite kSq) r

/-- The function `erfcTilde` on doubles: `r` is a value it returns. -/
noncomputable def erfcTilde_double (Gsq omegaSq : ℝ) (r : Double64) : Prop :=
  if omegaSq ≠ 0 then
    ∃ t a e u q p : Double64,
      Double64.mul (.finite (-0.25)) (.finite Gsq) t ∧ Double64.div t (.finite omegaSq) a ∧
      Double64.exp a e ∧ Double64.sub (.finite 1) e u ∧
      Double64.mul (.finite 4) (.finite M_PI) q ∧ Double64.mul q u p ∧
      Double64.div p (.finite Gsq) r
  else
    ∃ q p : Double64,
      Double64.mul (.finite 4) (.finite M_PI) q ∧ Double64.mul q (.finite 1) p ∧
      Double64.div p (.finite Gsq) r

/-! ## Basic facts about the data model -/

theorem metric_length_squared_eq_quadForm (GGT : Matrix3) (iG : Vector3Int) :
    metric_length_squared GGT iG = quadForm GGT (fun i => (iG i : ℝ)) := rfl

theorem metric_length_squared_zero (GGT : Matrix3) :
    metric_length_squared GGT (0 : Vector3Int) = 0 := by
  unfold metric_length_squared
  simp

theorem metric_length_squared_nonneg {GGT : Matrix3} (h : IsSymmPSD GGT) (iG : Vector3Int) :
    0 ≤ metric_length_squared GGT iG := by
  rw [metric_length_squared_eq_quadForm]
  exact h.2 _

theorem quadForm_identityMetric (v : Fin 3 → ℝ) :
    quadForm identityMetric v = v 0 * v 0 + v 1 * v 1 + v 2 * v 2 := by
  unfold quadForm identityMetric
  simp [Fin.sum_univ_three]

theorem isSymmPSD_identityMetric : IsSymmPSD identityMetric := by
  refine ⟨fun i j => ?_, fun v => ?_⟩
  · unfold identityMetric
    simp [eq_comm]
  · rw [quadForm_identityMetric]
    nlinarith [mul_self_nonneg (v 0), mul_self_nonneg (v 1), mul_self_nonneg (v 2)]

theorem metric_length_squared_identityMetric (iG : Vector3Int) :
    metric_length_squared identityMetric iG
      = (iG 0 : ℝ) * iG 0 + (iG 1 : ℝ) * iG 1 + (iG 2 : ℝ) * iG 2 := by
  rw [metric_length_squared_eq_quadForm, quadForm_identityMetric]

theorem CoulombSlab_calc.Gplane_nonneg (c : CoulombSlab_calc) (iG : Vector3Int)
    (GGT : Matrix3) : 0 ≤ c.Gplane iG GGT := by
  unfold CoulombSlab_calc.Gplane
  simp only
  split_ifs
  · exact Real.sqrt_nonneg _
  · exact le_refl _

theorem CoulombSlab_call_of_ne_zero (c : CoulombSlab_calc) (iG : Vector3Int)
    (GGT : Matrix3) (h : metric_length_squared GGT iG ≠ 0) :
    c.call iG GGT
      = 4 * Real.pi
          * (1 - Real.exp (-(c.Gplane iG GGT) * c.hlfL) * Real.cos (Real.pi * (iG c.iDir : ℝ)))
          / metric_length_squared GGT iG := by
  unfold CoulombSlab_calc.call
  simp only [h, ne_eq, not_false_eq_true, if_true]
  ring

theorem CoulombSlab_call_of_eq_zero (c : CoulombSlab_calc) (iG : Vector3Int)
    (GGT : Matrix3) (h : metric_length_squared GGT iG = 0) :
    c.call iG GGT = -(2 * Real.pi * c.hlfL ^ 2) := by
  unfold CoulombSlab_calc.call
  simp only [h, ne_eq, not_true_eq_false, if_false]
  ring

theorem CoulombSpherical_call_of_ne_zero (c : CoulombSpherical_calc) (iG : Vector3Int)
    (GGT : Matrix3) (h : metric_length_squared GGT iG ≠ 0) :
    c.call iG GGT
      = 4 * Real.pi * (1 - Real.cos (c.Rc * Real.sqrt (metric_length_squared GGT iG)))
          / metric_length_squared GGT iG := by
  unfold CoulombSpherical_calc.call
  simp [h]

theorem CoulombSpherical_call_of_eq_zero (c : CoulombSpherical_calc) (iG : Vector3Int)
    (GGT : Matrix3) (h : metric_length_squared GGT iG = 0) :
    c.call iG GGT = 2 * Real.pi * c.Rc ^ 2 := by
  unfold CoulombSpherical_calc.call
  simp only [h, ne_eq, not_true_eq_false, if_false]
  ring

/-! ## Analytic lemmas -/

open Filter Topology

/-- The polynomial of `erf_by_x` against `erf x / x` on `(0, 1e-3]`: the two differ by at
most `1e-12`. -/
theorem erf_poly_close (x : ℝ) (hx : 0 < x) (hx3 : x ≤ 1e-3) :
    |(1 / Real.sqrt Real.pi) * (2 - x * x * (2 / 3 + 0.2 * (x * x))) - erf x / x| ≤ 1e-12 := by
  have hcont : Continuous (fun s : ℝ => Real.exp (-(s ^ 2))) := by
    continuity
  have gauss_lower : ∀ s : ℝ, 1 - s ^ 2 ≤ Real.exp (-(s ^ 2)) := by
    intro s
    have := Real.add_one_le_exp (-(s ^ 2))
    linarith
  have gauss_upper : ∀ s : ℝ, s ^ 2 ≤ 1 → Real.exp (-(s ^ 2)) ≤ 1 - s ^ 2 + s ^ 4 := by
    intro s hs
    have h0 : 0 ≤ s ^ 2 := sq_nonneg s
    have habs : |-(s ^ 2)| ≤ 1 := by
      rw [abs_neg, abs_of_nonneg h0]
      exact hs
    have h := Real.abs_exp_sub_one_sub_id_le habs
    have h2 := (abs_le.mp h).2
    nlinarith
  have hx1 : x ≤ 1 := hx3.trans (by norm_num)
  have hlo : x - x ^ 3 / 3 ≤ ∫ s in (0 : ℝ)..x, Real.exp (-(s ^ 2)) := by
    have hpoly : ∫ s in (0 : ℝ)..x, (1 - s ^ 2) = x - x ^ 3 / 3 := by
      rw [intervalIntegral.integral_sub (by simp) (by simp)]
      simp [integral_pow]
      norm_num
    rw [← hpoly]
    apply intervalIntegral.integral_mono_on hx.le
    · exact Continuous.intervalIntegrable (by continuity) _ _
    · exact hcont.intervalIntegrable _ _
    · intro s _
      exact gauss_lower s
  have hup : ∫ s in (0 : ℝ)..x, Real.exp (-(s ^ 2)) ≤ x - x ^ 3 / 3 + x ^ 5 / 5 := by
    have hpoly : ∫ s in (0 : ℝ)..x, (1 - s ^ 2 + s ^ 4) = x - x ^ 3 / 3 + x ^ 5 / 5 := by
      rw [intervalIntegral.integral_add (by apply Continuous.intervalIntegrable; continuity)
        (by simp), intervalIntegral.integral_sub (by simp) (by simp)]
      simp [integral_pow]
      norm_num
    rw [← hpoly]
    apply intervalIntegral.integral_mono_on hx.le
    · exact hcont.intervalIntegrable _ _
    · exact Continuous.intervalIntegrable (by continuity) _ _
    · intro s hs
      apply gauss_upper
      have h0 : 0 ≤ s := hs.1
      have h1 : s ≤ 1 := hs.2.trans hx1
      nlinarith
  set I := ∫ s in (0 : ℝ)..x, Real.exp (-(s ^ 2)) with hI
  have hs1 : 1 ≤ Real.sqrt Real.pi := by
    rw [Real.one_le_sqrt]
    linarith [Real.pi_gt_three]
  have hs0 : 0 < Real.sqrt Real.pi := lt_of_lt_of_le one_pos hs1
  set c := 1 / Real.sqrt Real.pi with hc
  have hc0 : 0 < c := by positivity
  have hc1 : c ≤ 1 := by
    rw [hc, div_le_one hs0]
    exact hs1
  have hq : erf x / x = c * (2 * (I / x)) := by
    unfold erf
    rw [← hI, hc]
    field_simp
  have hqlo : 1 - x ^ 2 / 3 ≤ I / x := by
    rw [le_div_iff₀ hx]
    nlinarith
  have hqup : I / x ≤ 1 - x ^ 2 / 3 + x ^ 4 / 5 := by
    rw [div_le_iff₀ hx]
    nlinarith
  have hx4 : x ^ 4 ≤ 1e-12 := by
    have : x ^ 4 ≤ (1e-3 : ℝ) ^ 4 := pow_le_pow_left₀ hx.le hx3 4
    norm_num at this ⊢
    exact this
  have hx4' : 0 ≤ x ^ 4 := by positivity
  rw [hq, ← mul_sub, abs_mul, abs_of_pos hc0]
  have hinner : |2 - x * x * (2 / 3 + 0.2 * (x * x)) - 2 * (I / x)| ≤ 1e-12 := by
    rw [abs_le]
    constructor
    · norm_num at hx4 ⊢
      nlinarith
    · norm_num at hx4 ⊢
      nlinarith
  calc c * |2 - x * x * (2 / 3 + 0.2 * (x * x)) - 2 * (I / x)|
      ≤ 1 * |2 - x * x * (2 / 3 + 0.2 * (x * x)) - 2 * (I / x)| :=
        mul_le_mul_of_nonneg_right hc1 (abs_nonneg _)
    _ ≤ 1e-12 := by rw [one_mul]; exact hinner

theorem ExchangePeriodicScreened_calc.call_ctor (omega kSq : ℝ) :
    (ExchangePeriodicScreened_calc.ctor omega).call kSq
      = 4 * Real.pi * (1 - Real.exp (-(kSq / (4 * omega ^ 2)))) / kSq := by
  have e : -(0.25 / (omega * omega)) * kSq = -(kSq / (4 * omega ^ 2)) := by
    rw [sq]
    by_cases h : omega = 0
    · simp [h]
    · field_simp
      ring
  unfold ExchangePeriodicScreened_calc.call ExchangePeriodicScreened_calc.ctor
  simp only [e]

theorem tendsto_screen_exponent_zero (kSq : ℝ) (hk : 0 < kSq) :
    Tendsto (fun omega : ℝ => kSq / (4 * omega ^ 2)) (𝓝[>] 0) atTop := by
  have h1 : Tendsto (fun omega : ℝ => omega⁻¹ * omega⁻¹) (𝓝[>] 0) atTop :=
    tendsto_inv_zero_atTop.atTop_mul_atTop tendsto_inv_zero_atTop
  have h2 : Tendsto (fun omega : ℝ => (kSq / 4) * (omega⁻¹ * omega⁻¹)) (𝓝[>] 0) atTop :=
    h1.const_mul_atTop (by positivity)
  refine h2.congr (fun omega => ?_)
  rw [sq, div_eq_mul_inv, div_eq_mul_inv, mul_inv, mul_inv]
  ring

theorem tendsto_screen_exponent_atTop (kSq : ℝ) :
    Tendsto (fun omega : ℝ => kSq / (4 * omega ^ 2)) atTop (𝓝 0) := by
  have h1 : Tendsto (fun omega : ℝ => omega * omega) atTop atTop :=
    tendsto_id.atTop_mul_atTop tendsto_id
  have h2 : Tendsto (fun omega : ℝ => (omega * omega)⁻¹) atTop (𝓝 0) :=
    tendsto_inv_atTop_zero.comp h1
  have h3 : Tendsto (fun omega : ℝ => (kSq / 4) * (omega * omega)⁻¹) atTop (𝓝 ((kSq / 4) * 0)) :=
    h2.const_mul _
  rw [mul_zero] at h3
  refine h3.congr (fun omega => ?_)
  rw [sq, div_eq_mul_inv, div_eq_mul_inv, mul_inv]
  ring

theorem exp_neg_21_lt : Real.exp (-21) < 1e-9 := by
  have h1 : (2.7 : ℝ) < Real.exp 1 := lt_trans (by norm_num) Real.exp_one_gt_d9
  have h2 : Real.exp 21 = Real.exp 1 ^ 21 := by
    rw [← Real.exp_nat_mul]
    norm_num
  have h3 : (2.7 : ℝ) ^ 21 < Real.exp 1 ^ 21 := pow_lt_pow_left₀ h1 (by norm_num) (by norm_num)
  have h4 : (1e9 : ℝ) < Real.exp 21 := by
    rw [h2]
    refine lt_trans ?_ h3
    norm_num
  rw [Real.exp_neg]
  rw [inv_lt_comm₀ (Real.exp_pos _) (by norm_num)]
  refine lt_of_le_of_lt ?_ h4
  norm_num

/-- Distance of the generic sphere-truncated formula from `2π·Rc²` for small positive `x`. -/
theorem spherical_generic_close (Rc x : ℝ) (hx : 0 < x) (hsmall : Rc ^ 2 * x ≤ 1) :
    |(ExchangeSpherical_calc.mk Rc).call x - 2 * Real.pi * Rc ^ 2|
      ≤ (4 * Real.pi * Rc ^ 4 * (5 / 96)) * x := by
  have hpi : 0 < Real.pi := Real.pi_pos
  have hsq : Real.sqrt x ^ 2 = x := Real.sq_sqrt hx.le
  have hy2 : (Rc * Real.sqrt x) ^ 2 = Rc ^ 2 * x := by rw [mul_pow, hsq]
  have hy1 : |Rc * Real.sqrt x| ≤ 1 := by
    rw [← sq_le_one_iff_abs_le_one, hy2]
    exact hsmall
  have hb := Real.cos_bound hy1
  have hy4 : |Rc * Real.sqrt x| ^ 4 = Rc ^ 4 * x ^ 2 := by
    have : |Rc * Real.sqrt x| ^ 4 = ((Rc * Real.sqrt x) ^ 2) ^ 2 := by
      rw [← pow_mul, ← abs_pow, abs_of_nonneg (by positivity)]
    rw [this, hy2]
    ring
  rw [hy4, hy2] at hb
  have e : (ExchangeSpherical_calc.mk Rc).call x - 2 * Real.pi * Rc ^ 2
      = -(4 * Real.pi / x) * (Real.cos (Rc * Real.sqrt x) - (1 - Rc ^ 2 * x / 2)) := by
    unfold ExchangeSpherical_calc.call
    simp only
    field_simp
    ring
  rw [e, abs_mul, abs_neg, abs_of_pos (by positivity : 0 < 4 * Real.pi / x)]
  calc 4 * Real.pi / x * |Real.cos (Rc * Real.sqrt x) - (1 - Rc ^ 2 * x / 2)|
      ≤ 4 * Real.pi / x * (Rc ^ 4 * x ^ 2 * (5 / 96)) :=
        mul_le_mul_of_nonneg_left hb (by positivity)
    _ = 4 * Real.pi * Rc ^ 4 * (5 / 96) * x := by
        field_simp
        ring

theorem tendsto_spherical_generic (Rc : ℝ) :
    Tendsto (fun x : ℝ => (ExchangeSpherical_calc.mk Rc).call x) (𝓝[>] 0)
      (𝓝 (2 * Real.pi * Rc ^ 2)) := by
  rw [← tendsto_sub_nhds_zero_iff]
  have hbound : Tendsto (fun x : ℝ => (4 * Real.pi * Rc ^ 4 * (5 / 96)) * x) (𝓝[>] 0) (𝓝 0) := by
    have h : Tendsto (fun x : ℝ => (4 * Real.pi * Rc ^ 4 * (5 / 96)) * x) (𝓝 0)
        (𝓝 ((4 * Real.pi * Rc ^ 4 * (5 / 96)) * 0)) :=
      (continuous_const.mul continuous_id).tendsto 0
    rw [mul_zero] at h
    exact h.mono_left nhdsWithin_le_nhds
  refine squeeze_zero_norm' ?_ hbound
  have hmem : Set.Ioo (0 : ℝ) (1 / (Rc ^ 2 + 1)) ∈ 𝓝[>] (0 : ℝ) :=
    Ioo_mem_nhdsWithin_Ioi' (by positivity)
  filter_upwards [hmem] with x hx
  rw [Real.norm_eq_abs]
  apply spherical_generic_close Rc x hx.1
  have h1 : x < 1 / (Rc ^ 2 + 1) := hx.2
  have hpos : 0 < Rc ^ 2 + 1 := by positivity
  rw [lt_div_iff₀ hpos] at h1
  nlinarith [hx.1, sq_nonneg Rc]

/-! ## Lemmas for the slab kernel and the scenario metrics -/

theorem metric_length_squared_neg (GGT : Matrix3) (iG : Vector3Int) :
    metric_length_squared GGT (-iG) = metric_length_squared GGT iG := by
  unfold metric_length_squared
  simp

theorem cos_pi_mul_int_even (n : ℤ) (hn : Even n) : Real.cos (Real.pi * (n : ℝ)) = 1 := by
  obtain ⟨k, rfl⟩ := hn
  have e : Real.pi * ((k + k : ℤ) : ℝ) = (k : ℝ) * (2 * Real.pi) := by
    push_cast
    ring
  rw [e, Real.cos_int_mul_two_pi]

theorem cos_pi_mul_int_odd (n : ℤ) (hn : Odd n) : Real.cos (Real.pi * (n : ℝ)) = -1 := by
  obtain ⟨k, rfl⟩ := hn
  have e : Real.pi * ((2 * k + 1 : ℤ) : ℝ) = (k : ℝ) * (2 * Real.pi) + Real.pi := by
    push_cast
    ring
  rw [e, Real.cos_int_mul_two_pi_add_pi]

theorem CoulombSlab_calc.Gplane_neg (c : CoulombSlab_calc) (iG : Vector3Int) (GGT : Matrix3) :
    c.Gplane (-iG) GGT = c.Gplane iG GGT := by
  unfold CoulombSlab_calc.Gplane
  simp [metric_length_squared_neg]

theorem metric_length_squared_scalarMetric (a : ℝ) (iG : Vector3Int) :
    metric_length_squared (scalarMetric a) iG
      = a * ((iG 0 : ℝ) * iG 0 + (iG 1 : ℝ) * iG 1 + (iG 2 : ℝ) * iG 2) := by
  unfold metric_length_squared scalarMetric
  simp [Fin.sum_univ_three]
  ring

theorem CoulombPeriodic_call_of_ne_zero (c : CoulombPeriodic_calc) (iG : Vector3Int)
    (GGT : Matrix3) (h : metric_length_squared GGT iG ≠ 0) :
    c.call iG GGT = 4 * Real.pi / metric_length_squared GGT iG := by
  unfold CoulombPeriodic_calc.call
  simp [h]

theorem CoulombPeriodic_call_of_eq_zero (c : CoulombPeriodic_calc) (iG : Vector3Int)
    (GGT : Matrix3) (h : metric_length_squared GGT iG = 0) :
    c.call iG GGT = 0 := by
  unfold CoulombPeriodic_calc.call
  simp [h]

theorem shearMetric_symm (i j : Fin 3) : shearMetric i j = shearMetric j i := by
  unfold shearMetric
  fin_cases i <;> fin_cases j <;> simp

/-- The in-plane identity for a symmetric metric: the quantity under the square root is the
quadratic form on the index with its `iDir` component zeroed, plus the cross terms between
direction `iDir` and the other two. -/
theorem slab_inplane_identity (GGT : Matrix3) (hsymm : ∀ i j, GGT i j = GGT j i)
    (iG : Vector3Int) (iDir : Fin 3) :
    metric_length_squared GGT iG - GGT iDir iDir * (iG iDir : ℝ) * (iG iDir : ℝ)
      = metric_length_squared GGT (Function.update iG iDir 0)
        + 2 * (iG iDir : ℝ) * ∑ j : Fin 3, (if j = iDir then 0 else GGT iDir j * (iG j : ℝ)) := by
  have h10 := hsymm 1 0
  have h20 := hsymm 2 0
  have h21 := hsymm 2 1
  fin_cases iDir
  · unfold metric_length_squared
    simp [Fin.sum_univ_three, Function.update, h10, h20, h21]
    ring
  · unfold metric_length_squared
    simp [Fin.sum_univ_three, Function.update, h10, h20, h21]
    ring
  · unfold metric_length_squared
    simp [Fin.sum_univ_three, Function.update, h10, h20, h21]
    ring

theorem CoulombSlab_call_in_plane (c : CoulombSlab_calc) (iG : Vector3Int) (GGT : Matrix3)
    (G : ℝ) (hG : 0 < G) (h0 : iG c.iDir = 0) (hsq : metric_length_squared GGT iG = G ^ 2) :
    c.call iG GGT = 4 * Real.pi * (1 - Real.exp (-G * c.hlfL)) / G ^ 2 := by
  have hG2 : 0 < G ^ 2 := by positivity
  have hne : metric_length_squared GGT iG ≠ 0 := by rw [hsq]; exact hG2.ne'
  have hp : c.Gplane iG GGT = G := by
    unfold CoulombSlab_calc.Gplane
    simp only [h0, hsq, Int.cast_zero, mul_zero, sub_zero, gt_iff_lt, hG2, if_true]
    exact Real.sqrt_sq hG.le
  rw [CoulombSlab_call_of_ne_zero c iG GGT hne, hp, h0, hsq]
  simp

theorem exp_neg_quadratic_close (u : ℝ) (hu : |u| ≤ 1) :
    |Real.exp (-u) - (1 - u + u ^ 2 / 2)| ≤ |u| ^ 3 * (2 / 9) := by
  have h := Real.exp_bound (x := -u) (by rwa [abs_neg]) (n := 3) (by norm_num)
  simp only [Finset.sum_range_succ, Finset.sum_range_zero, Nat.factorial, abs_neg] at h
  norm_num at h
  have e : 1 + -u + u ^ 2 / 2 = 1 - u + u ^ 2 / 2 := by ring
  rw [e] at h
  exact h

theorem slab_regularized_close (h G : ℝ) (hG : 0 < G) (hsmall : |G * h| ≤ 1) :
    |(4 * Real.pi * (1 - Real.exp (-G * h)) / G ^ 2 - 4 * Real.pi * h / G)
        - -(2 * Real.pi * h ^ 2)|
      ≤ (4 * Real.pi * |h| ^ 3 * (2 / 9)) * G := by
  have hpi : 0 < Real.pi := Real.pi_pos
  have hb := exp_neg_quadratic_close (G * h) hsmall
  have hG2 : 0 < G ^ 2 := by positivity
  have e : (4 * Real.pi * (1 - Real.exp (-G * h)) / G ^ 2 - 4 * Real.pi * h / G)
        - -(2 * Real.pi * h ^ 2)
      = -(4 * Real.pi / G ^ 2) * (Real.exp (-(G * h)) - (1 - G * h + (G * h) ^ 2 / 2)) := by
    rw [neg_mul G h]
    field_simp
    ring
  rw [e, abs_mul, abs_neg, abs_of_pos (by positivity : 0 < 4 * Real.pi / G ^ 2)]
  have habs : |G * h| ^ 3 = G ^ 3 * |h| ^ 3 := by
    rw [abs_mul, abs_of_pos hG, mul_pow]
  rw [habs] at hb
  calc 4 * Real.pi / G ^ 2 * |Real.exp (-(G * h)) - (1 - G * h + (G * h) ^ 2 / 2)|
      ≤ 4 * Real.pi / G ^ 2 * (G ^ 3 * |h| ^ 3 * (2 / 9)) :=
        mul_le_mul_of_nonneg_left hb (by positivity)
    _ = 4 * Real.pi * |h| ^ 3 * (2 / 9) * G := by
        field_simp
        ring

theorem tendsto_slab_regularized (h : ℝ) :
    Tendsto (fun G : ℝ => 4 * Real.pi * (1 - Real.exp (-G * h)) / G ^ 2 - 4 * Real.pi * h / G)
      (𝓝[>] 0) (𝓝 (-(2 * Real.pi * h ^ 2))) := by
  rw [← tendsto_sub_nhds_zero_iff]
  have hbound : Tendsto (fun G : ℝ => (4 * Real.pi * |h| ^ 3 * (2 / 9)) * G) (𝓝[>] 0)
      (𝓝 0) := by
    have h' : Tendsto (fun G : ℝ => (4 * Real.pi * |h| ^ 3 * (2 / 9)) * G) (𝓝 0)
        (𝓝 ((4 * Real.pi * |h| ^ 3 * (2 / 9)) * 0)) :=
      (continuous_const.mul continuous_id).tendsto 0
    rw [mul_zero] at h'
    exact h'.mono_left nhdsWithin_le_nhds
  refine squeeze_zero_norm' ?_ hbound
  have hmem : Set.Ioo (0 : ℝ) (1 / (|h| + 1)) ∈ 𝓝[>] (0 : ℝ) :=
    Ioo_mem_nhdsWithin_Ioi' (by positivity)
  filter_upwards [hmem] with G hG
  rw [Real.norm_eq_abs]
  apply slab_regularized_close h G hG.1
  have h1 : G < 1 / (|h| + 1) := hG.2
  have hpos : 0 < |h| + 1 := by positivity
  rw [lt_div_iff₀ hpos] at h1
  rw [abs_mul, abs_of_pos hG.1]
  nlinarith [hG.1, abs_nonneg h]

theorem tendsto_slab_generic_atTop (h : ℝ) (hh : 0 < h) :
    Tendsto (fun G : ℝ => 4 * Real.pi * (1 - Real.exp (-G * h)) / G ^ 2) (𝓝[>] 0) atTop := by
  have h1 : Tendsto (fun G : ℝ => (4 * Real.pi * h) * G⁻¹) (𝓝[>] 0) atTop :=
    tendsto_inv_zero_atTop.const_mul_atTop (by positivity)
  have h2 := (tendsto_slab_regularized h).add_atTop h1
  refine h2.congr (fun G => ?_)
  rw [div_eq_mul_inv (4 * Real.pi * h) G]
  ring

/-! ## Lemmas on binary64 arithmetic -/

theorem isDouble_mk (m : ℤ) (e : ℕ) (hm : |m| < 2 ^ 53) (he : e ≤ 2045) (d : ℝ)
    (hd : d = (m : ℝ) * 2 ^ e / 2 ^ 1074) : IsDouble d :=
  ⟨m, e, hm, he, hd⟩

theorem rounds_of_isDouble {x : ℝ} (hx : IsDouble x) (r : Double64) :
    Rounds x r ↔ r = .finite x := by
  have hlt : |x| < overflowThreshold := by
    obtain ⟨m, e, hm, he, hd⟩ := hx
    rw [hd]
    have hm1 : |m| ≤ 2 ^ 53 - 1 := by omega
    have hm2 : |(m : ℝ)| ≤ 2 ^ 53 - 1 := by
      have : ((|m| : ℤ) : ℝ) ≤ ((2 ^ 53 - 1 : ℤ) : ℝ) := by exact_mod_cast hm1
      rw [Int.cast_abs] at this
      refine this.trans (le_of_eq ?_)
      push_cast
      ring
    have he2 : (2 : ℝ) ^ e ≤ 2 ^ 2045 := pow_le_pow_right₀ (by norm_num) he
    have h0 : (0 : ℝ) < 2 ^ 1074 := by positivity
    have h1 : |(m : ℝ) * 2 ^ e / 2 ^ 1074| = |(m : ℝ)| * 2 ^ e / 2 ^ 1074 := by
      rw [abs_div, abs_mul, abs_of_pos h0, abs_of_pos (by positivity : (0 : ℝ) < 2 ^ e)]
    rw [h1]
    unfold overflowThreshold
    rw [div_lt_iff₀ h0]
    have h2 : |(m : ℝ)| * 2 ^ e ≤ (2 ^ 53 - 1) * 2 ^ 2045 :=
      mul_le_mul hm2 he2 (by positivity) (by norm_num)
    refine lt_of_le_of_lt h2 ?_
    norm_num
  constructor
  · intro h
    cases r with
    | finite d =>
      have h2 := h.2.2 x hx
      rw [sub_self, abs_zero] at h2
      have h3 : x - d = 0 := abs_eq_zero.mp (le_antisymm h2 (abs_nonneg _))
      have : d = x := by linarith
      rw [this]
    | posInf =>
      exact absurd (lt_of_le_of_lt (le_trans h (le_abs_self x)) hlt) (lt_irrefl _)
    | negInf =>
      have h1 : overflowThreshold ≤ -x := by
        have : x ≤ -overflowThreshold := h
        linarith
      exact absurd (lt_of_le_of_lt (le_trans h1 (neg_le_abs x)) hlt) (lt_irrefl _)
  · rintro rfl
    exact ⟨hlt, hx, fun d2 _ => by rw [sub_self, abs_zero]; exact abs_nonneg _⟩

theorem rounds_finite_le {x d y : ℝ} (h : Rounds x (.finite d)) (hy : IsDouble y)
    (hxy : x ≤ y) : d ≤ y := by
  by_contra hc
  have hdy : y < d := not_le.mp hc
  have h2 := h.2.2 y hy
  rw [abs_of_nonpos (by linarith : x - d ≤ 0), abs_of_nonpos (by linarith : x - y ≤ 0)] at h2
  linarith

theorem rounds_finite_ge {x d y : ℝ} (h : Rounds x (.finite d)) (hy : IsDouble y)
    (hyx : y ≤ x) : y ≤ d := by
  by_contra hc
  have hdy : d < y := not_le.mp hc
  have h2 := h.2.2 y hy
  rw [abs_of_nonneg (by linarith : 0 ≤ x - d), abs_of_nonneg (by linarith : 0 ≤ x - y)] at h2
  linarith

theorem exists_isNearestDouble (x : ℝ) : ∃ d, IsNearestDouble x d := by
  have hfinite : {d : ℝ | IsDouble d}.Finite := by
    have hfin : ((Set.Ioo (-(2 : ℤ) ^ 53) (2 ^ 53)) ×ˢ (Set.Iic (2045 : ℕ))).Finite :=
      (Set.finite_Ioo _ _).prod (Set.finite_Iic _)
    refine (hfin.image (fun p : ℤ × ℕ => (p.1 : ℝ) * 2 ^ p.2 / 2 ^ 1074)).subset ?_
    rintro d ⟨m, e, hm, he, rfl⟩
    refine ⟨(m, e), ⟨?_, he⟩, rfl⟩
    have := abs_lt.mp hm
    exact ⟨by simpa using this.1, this.2⟩
  obtain ⟨d, hd, hmin⟩ := Set.exists_min_image {d : ℝ | IsDouble d} (fun d => |x - d|)
    hfinite
    ⟨0, isDouble_mk 0 0 (by norm_num) (by norm_num) _ (by norm_num)⟩
  exact ⟨d, hd, fun d2 hd2 => hmin d2 hd2⟩

theorem exists_rounds (x : ℝ) : ∃ r, Rounds x r := by
  by_cases h : |x| < overflowThreshold
  · obtain ⟨d, hd⟩ := exists_isNearestDouble x
    exact ⟨.finite d, h, hd⟩
  · have h1 : overflowThreshold ≤ |x| := not_lt.mp h
    rcases le_abs'.mp h1 with h2 | h2
    · exact ⟨.negInf, h2⟩
    · exact ⟨.posInf, h2⟩

theorem rounds_finite_of_abs_lt {x : ℝ} (h : |x| < overflowThreshold) {r : Double64}
    (hr : Rounds x r) : ∃ d, r = .finite d ∧ IsNearestDouble x d := by
  cases r with
  | finite d => exact ⟨d, rfl, hr.2⟩
  | posInf =>
    exact absurd (lt_of_le_of_lt (le_trans hr (le_abs_self x)) h) (lt_irrefl _)
  | negInf =>
    have h1 : overflowThreshold ≤ -x := by
      have : x ≤ -overflowThreshold := hr
      linarith
    exact absurd (lt_of_le_of_lt (le_trans h1 (neg_le_abs x)) h) (lt_irrefl _)

/-- The run of `CoulombSpherical_calc(5.5)` on doubles at `iG = (1,0,0)`, `GGT = 2^-54·I`. -/
theorem CoulombSpherical_call_double_run (r : Double64) :
    (CoulombSpherical_calc.mk 5.5).call_double ![1, 0, 0] (scalarMetric (1 / 2 ^ 54)) r
      ↔ r = .finite (64 * M_PI) := by
  -- a double that is at least `1/2` lies on the grid of spacing `2^-53`
  have hgrid : ∀ {d : ℝ}, IsDouble d → 1 / 2 ≤ d → ∃ j : ℤ, d = (j : ℝ) / 2 ^ 53 := by
    intro d h hd
    obtain ⟨m, e, hm, he, rfl⟩ := h
    by_cases hge : 1021 ≤ e
    · refine ⟨m * 2 ^ (e - 1021), ?_⟩
      have he' : e = (e - 1021) + 1021 := (Nat.sub_add_cancel hge).symm
      have h1 : (2 : ℝ) ^ e = 2 ^ (e - 1021) * 2 ^ 1021 := by
        rw [← pow_add, ← he']
      rw [h1]
      push_cast
      rw [div_eq_div_iff (by positivity) (by positivity)]
      have h2 : (2 : ℝ) ^ 1074 = 2 ^ 1021 * 2 ^ 53 := by rw [← pow_add]
      rw [h2]
      ring
    · exfalso
      have hle : e ≤ 1020 := by omega
      have hm2 : (m : ℝ) < 2 ^ 53 := by
        have := (abs_lt.mp hm).2
        exact_mod_cast this
      have he2 : (2 : ℝ) ^ e ≤ 2 ^ 1020 := pow_le_pow_right₀ (by norm_num) hle
      have h0 : (0 : ℝ) < 2 ^ 1074 := by positivity
      have h3 : (m : ℝ) * 2 ^ e < 2 ^ 53 * 2 ^ 1020 := by
        by_cases hmpos : 0 < (m : ℝ)
        · calc (m : ℝ) * 2 ^ e ≤ (m : ℝ) * 2 ^ 1020 :=
                mul_le_mul_of_nonneg_left he2 hmpos.le
            _ < 2 ^ 53 * 2 ^ 1020 := mul_lt_mul_of_pos_right hm2 (by positivity)
        · have : (m : ℝ) * 2 ^ e ≤ 0 :=
            mul_nonpos_of_nonpos_of_nonneg (not_lt.mp hmpos) (by positivity)
          have : (0 : ℝ) < 2 ^ 53 * 2 ^ 1020 := by positivity
          linarith
      have h4 : (m : ℝ) * 2 ^ e / 2 ^ 1074 < 1 / 2 := by
        rw [div_lt_iff₀ h0]
        refine lt_of_lt_of_le h3 (le_of_eq ?_)
        have : (2 : ℝ) ^ 1074 = 2 ^ 53 * 2 ^ 1020 * 2 := by
          rw [← pow_add, ← pow_succ]
        rw [this]
        ring
      linarith
  -- a real within half a grid step of a double `d0 ≥ 1/2 + 2^-53` has `d0` as its only
  -- nearest double
  have hnear : ∀ {x d0 d : ℝ}, IsDouble d0 → 1 / 2 + 1 / 2 ^ 53 ≤ d0 →
      |x - d0| < 1 / 2 ^ 54 → IsNearestDouble x d → d = d0 := by
    intro x d0 d hd0 hlo hx h
    have h1 : |x - d| ≤ |x - d0| := h.2 d0 hd0
    have h2 : |d - d0| < 1 / 2 ^ 53 := by
      have h3 : |d - d0| ≤ |x - d| + |x - d0| := by
        have : d - d0 = (x - d0) - (x - d) := by ring
        rw [this]
        exact (abs_sub _ _).trans (by rw [add_comm])
      have h4 : (1 : ℝ) / 2 ^ 54 + 1 / 2 ^ 54 = 1 / 2 ^ 53 := by norm_num
      linarith
    have h5 := abs_lt.mp h2
    have hdge : 1 / 2 ≤ d := by linarith [h5.1]
    have hd0ge : (1 : ℝ) / 2 ≤ d0 := by
      have : (0 : ℝ) < 1 / 2 ^ 53 := by positivity
      linarith
    obtain ⟨j, hj⟩ := hgrid h.1 hdge
    obtain ⟨j0, hj0⟩ := hgrid hd0 hd0ge
    have h6 : |((j - j0 : ℤ) : ℝ)| < 1 := by
      have h7 : d - d0 = ((j - j0 : ℤ) : ℝ) / 2 ^ 53 := by
        rw [hj, hj0]
        push_cast
        ring
      rw [h7, abs_div, abs_of_pos (by positivity : (0 : ℝ) < 2 ^ 53),
        div_lt_div_iff_of_pos_right (by positivity)] at h2
      exact h2
    have h8 : |j - j0| < 1 := by
      have : ((|j - j0| : ℤ) : ℝ) < ((1 : ℤ) : ℝ) := by
        rw [Int.cast_abs]
        simpa using h6
      exact_mod_cast this
    have h9 : j - j0 = 0 := Int.abs_lt_one_iff.mp h8
    have : j = j0 := by omega
    rw [hj, hj0, this]
  have hsqrt : Real.sqrt (1 / 2 ^ 54) = 1 / 2 ^ 27 := by
    have h : (1 : ℝ) / 2 ^ 54 = (1 / 2 ^ 27) ^ 2 := by norm_num
    rw [h]
    exact Real.sqrt_sq (by positivity)
  have hcosd :
      |Real.cos (11 / 2 ^ 28) - (1 - 1 / 2 ^ 50)| < 1 / 2 ^ 54 := by
    have hy : |(11 : ℝ) / 2 ^ 28| ≤ 1 := by
      rw [abs_of_pos (by positivity)]
      norm_num
    have hb := Real.cos_bound hy
    rw [abs_of_pos (by positivity : (0 : ℝ) < 11 / 2 ^ 28)] at hb
    have hb2 := abs_le.mp hb
    rw [abs_lt]
    constructor
    · have := hb2.1
      norm_num at this ⊢
      linarith
    · have := hb2.2
      norm_num at this ⊢
      linarith
  have hG : metric_length_squared (scalarMetric (1 / 2 ^ 54)) ![1, 0, 0] = 1 / 2 ^ 54 := by
    rw [metric_length_squared_scalarMetric]
    simp
  have hGd : IsDouble (1 / 2 ^ 54) :=
    isDouble_mk 1 1020 (by norm_num) (by norm_num) _ (by norm_num)
  have hGne : (1 : ℝ) / 2 ^ 54 ≠ 0 := by positivity
  have hs : IsDouble (1 / 2 ^ 27) :=
    isDouble_mk 1 1047 (by norm_num) (by norm_num) _ (by norm_num)
  have hy : IsDouble (5.5 * (1 / 2 ^ 27)) :=
    isDouble_mk 11 1046 (by norm_num) (by norm_num) _ (by norm_num)
  have hyv : (5.5 : ℝ) * (1 / 2 ^ 27) = 11 / 2 ^ 28 := by norm_num
  have hd0 : IsDouble (1 - 1 / 2 ^ 50) :=
    isDouble_mk (2 ^ 53 - 8) 1021 (by norm_num) (by norm_num) _ (by norm_num)
  have hu : IsDouble (1 - (1 - 1 / 2 ^ 50)) :=
    isDouble_mk 1 1024 (by norm_num) (by norm_num) _ (by norm_num)
  have hq : IsDouble (4 * M_PI) :=
    isDouble_mk 7074237752028440 1025 (by norm_num) (by norm_num) _ (by unfold M_PI; norm_num)
  have hp : IsDouble (4 * M_PI * (1 - (1 - 1 / 2 ^ 50))) :=
    isDouble_mk 7074237752028440 975 (by norm_num) (by norm_num) _ (by unfold M_PI; norm_num)
  have hrv : 4 * M_PI * (1 - (1 - 1 / 2 ^ 50)) / (1 / 2 ^ 54) = 64 * M_PI := by
    norm_num
    ring
  have hr : IsDouble (64 * M_PI) :=
    isDouble_mk 7074237752028440 1029 (by norm_num) (by norm_num) _ (by unfold M_PI; norm_num)
  have hcoslt : |Real.cos (11 / 2 ^ 28)| < overflowThreshold := by
    refine lt_of_le_of_lt (Real.abs_cos_le_one _) ?_
    unfold overflowThreshold
    norm_num
  have hcos : ∀ co : Double64, Rounds (Real.cos (11 / 2 ^ 28)) co
      ↔ co = .finite (1 - 1 / 2 ^ 50) := by
    intro co
    constructor
    · intro h
      obtain ⟨d, rfl, hd⟩ := rounds_finite_of_abs_lt hcoslt h
      rw [hnear hd0 (by norm_num) hcosd hd]
    · rintro rfl
      refine ⟨hcoslt, hd0, fun d2 hd2 => ?_⟩
      by_contra hc
      have hlt : |Real.cos (11 / 2 ^ 28) - d2| < |Real.cos (11 / 2 ^ 28) - (1 - 1 / 2 ^ 50)| :=
        not_le.mp hc
      obtain ⟨d, hd⟩ := exists_isNearestDouble (Real.cos (11 / 2 ^ 28))
      have hdeq := hnear hd0 (by norm_num) hcosd hd
      have := hd.2 d2 hd2
      rw [hdeq] at this
      linarith
  delta CoulombSpherical_calc.call_double
  simp only [hG, hGne, ne_eq, not_false_eq_true, if_true]
  constructor
  · rintro ⟨_, s, y, co, u, q, p, h1, h2, h3, h4, h5, h6, h7⟩
    obtain ⟨_, h1v⟩ : (0 : ℝ) ≤ 1 / 2 ^ 54 ∧ Rounds (Real.sqrt (1 / 2 ^ 54)) s := h1
    rw [hsqrt, rounds_of_isDouble hs] at h1v
    subst h1v
    have h2v := (rounds_of_isDouble hy _).mp h2
    subst h2v
    have h3v : Rounds (Real.cos (5.5 * (1 / 2 ^ 27))) co := h3
    rw [hyv, hcos] at h3v
    subst h3v
    have h4v := (rounds_of_isDouble hu _).mp h4
    subst h4v
    have h5v := (rounds_of_isDouble hq _).mp h5
    subst h5v
    have h6v := (rounds_of_isDouble hp _).mp h6
    subst h6v
    obtain ⟨_, h7v⟩ : (1 : ℝ) / 2 ^ 54 ≠ 0
        ∧ Rounds (4 * M_PI * (1 - (1 - 1 / 2 ^ 50)) / (1 / 2 ^ 54)) r := h7
    rw [hrv, rounds_of_isDouble hr] at h7v
    exact h7v
  · rintro rfl
    refine ⟨hGd, .finite (1 / 2 ^ 27), .finite (5.5 * (1 / 2 ^ 27)),
      .finite (1 - 1 / 2 ^ 50), .finite (1 - (1 - 1 / 2 ^ 50)), .finite (4 * M_PI),
      .finite (4 * M_PI * (1 - (1 - 1 / 2 ^ 50))), ?_, ?_, ?_, ?_, ?_, ?_, ?_⟩
    · refine ⟨by positivity, ?_⟩
      rw [hsqrt]
      exact (rounds_of_isDouble hs _).mpr rfl
    · exact (rounds_of_isDouble hy _).mpr rfl
    · have h3v := (hcos (.finite (1 - 1 / 2 ^ 50))).mpr rfl
      rw [← hyv] at h3v
      exact h3v
    · exact (rounds_of_isDouble hu _).mpr rfl
    · exact (rounds_of_isDouble hq _).mpr rfl
    · exact (rounds_of_isDouble hp _).mpr rfl
    · refine ⟨hGne, ?_⟩
      rw [hrv]
      exact (rounds_of_isDouble hr _).mpr rfl

/-- The run of `ExchangePeriodicScreened_calc(2^-513)` on doubles at `kSq = 2^-1020`: the
constructor's `0.25/(omega*omega)` overflows to `+∞`, so the exponential is `0`. -/
theorem ExchangePeriodicScreened_call_double_run (inv4 r : Double64) :
    (ExchangePeriodicScreened_calc.ctor_double (1 / 2 ^ 513) inv4 ∧
        ExchangePeriodicScreened_calc.call_double inv4 (1 / 2 ^ 1020) r)
      ↔ (inv4 = .posInf ∧ r = .finite (4 * M_PI * 2 ^ 1020)) := by
  have hw : IsDouble ((1 / 2 ^ 513) * (1 / 2 ^ 513)) :=
    isDouble_mk 1 48 (by norm_num) (by norm_num) _ (by norm_num)
  have hwne : ((1 : ℝ) / 2 ^ 513) * (1 / 2 ^ 513) ≠ 0 := by positivity
  have hover : overflowThreshold ≤ 0.25 / ((1 / 2 ^ 513) * (1 / 2 ^ 513)) := by
    unfold overflowThreshold
    norm_num
  have hkpos : (0 : ℝ) < 1 / 2 ^ 1020 := by positivity
  have hu : IsDouble (1 - 0) :=
    isDouble_mk 1 1074 (by norm_num) (by norm_num) _ (by norm_num)
  have hq : IsDouble (4 * M_PI) :=
    isDouble_mk 7074237752028440 1025 (by norm_num) (by norm_num) _ (by unfold M_PI; norm_num)
  have hp : IsDouble (4 * M_PI * (1 - 0)) := by
    rw [sub_zero, mul_one]
    exact hq
  have hrv : 4 * M_PI * (1 - 0) / (1 / 2 ^ 1020) = 4 * M_PI * 2 ^ 1020 := by
    rw [sub_zero, mul_one, one_div, div_inv_eq_mul]
  have hr : IsDouble (4 * M_PI * 2 ^ 1020) :=
    isDouble_mk 7074237752028440 2045 (by norm_num) (by norm_num) _ (by unfold M_PI; norm_num)
  constructor
  · rintro ⟨⟨w, h1, h2⟩, a, e, u, q, p, h3, h4, h5, h6, h7, h8⟩
    have h1v := (rounds_of_isDouble hw _).mp h1
    subst h1v
    have hinv : inv4 = .posInf := by
      have hr : Rounds (0.25 / ((1 / 2 ^ 513) * (1 / 2 ^ 513))) inv4 := And.right h2
      have hpos : (0 : ℝ) < overflowThreshold := by
        unfold overflowThreshold
        norm_num
      cases inv4 with
      | finite d =>
        have hlt : |(0.25 : ℝ) / ((1 / 2 ^ 513) * (1 / 2 ^ 513))| < overflowThreshold := hr.1
        exact absurd (lt_of_le_of_lt (le_trans hover (le_abs_self _)) hlt) (lt_irrefl _)
      | posInf => rfl
      | negInf =>
        have : (0.25 : ℝ) / ((1 / 2 ^ 513) * (1 / 2 ^ 513)) ≤ -overflowThreshold := hr
        linarith
    subst hinv
    have ha : a = .negInf := by
      have h3v : (0 < (1 : ℝ) / 2 ^ 1020 ∧ a = .negInf)
          ∨ ((1 : ℝ) / 2 ^ 1020 < 0 ∧ a = .posInf) := h3
      rcases h3v with h3v | h3v
      · exact h3v.2
      · exact absurd h3v.1 (not_lt.mpr hkpos.le)
    subst ha
    have h4v : e = .finite 0 := h4
    subst h4v
    have h5v := (rounds_of_isDouble hu _).mp h5
    subst h5v
    have h6v := (rounds_of_isDouble hq _).mp h6
    subst h6v
    have h7v := (rounds_of_isDouble hp _).mp h7
    subst h7v
    obtain ⟨_, h8v⟩ : (1 : ℝ) / 2 ^ 1020 ≠ 0
        ∧ Rounds (4 * M_PI * (1 - 0) / (1 / 2 ^ 1020)) r := h8
    rw [hrv, rounds_of_isDouble hr] at h8v
    exact ⟨rfl, h8v⟩
  · rintro ⟨rfl, rfl⟩
    refine ⟨⟨.finite ((1 / 2 ^ 513) * (1 / 2 ^ 513)), ?_, ?_⟩,
      .negInf, .finite 0, .finite (1 - 0), .finite (4 * M_PI), .finite (4 * M_PI * (1 - 0)),
      ?_, ?_, ?_, ?_, ?_, ?_⟩
    · exact (rounds_of_isDouble hw _).mpr rfl
    · exact ⟨hwne, hover⟩
    · exact Or.inl ⟨hkpos, rfl⟩
    · exact (rfl : Double64.finite 0 = .finite 0)
    · exact (rounds_of_isDouble hu _).mpr rfl
    · exact (rounds_of_isDouble hq _).mpr rfl
    · exact (rounds_of_isDouble hp _).mpr rfl
    · refine ⟨hkpos.ne', ?_⟩
      rw [hrv]
      exact (rounds_of_isDouble hr _).mpr rfl

/-- The runs of `erfcTilde(2^-1020, 2^-1026)` on doubles: there is one, and every value
returned is an infinity or a finite double not above `(4·M_PI − 2^-30)·2^1020`. -/
theorem erfcTilde_double_run :
    (∃ r, erfcTilde_double (1 / 2 ^ 1020) (1 / 2 ^ 1026) r) ∧
      ∀ r, erfcTilde_double (1 / 2 ^ 1020) (1 / 2 ^ 1026) r →
        ∀ d, r = .finite d → d ≤ (4 * M_PI - 1 / 2 ^ 30) * 2 ^ 1020 := by
  have hwne : (1 : ℝ) / 2 ^ 1026 ≠ 0 := by positivity
  have hthr : (16 : ℝ) < overflowThreshold := by
    unfold overflowThreshold
    norm_num
  have hpi : 3.14 < M_PI ∧ M_PI < 3.15 := by
    unfold M_PI
    constructor <;> norm_num
  have ht : IsDouble (-0.25 * (1 / 2 ^ 1020)) :=
    isDouble_mk (-1) 52 (by norm_num) (by norm_num) _ (by norm_num)
  have hav : -0.25 * (1 / 2 ^ 1020) / (1 / 2 ^ 1026) = (-16 : ℝ) := by norm_num
  have ha : IsDouble (-16) :=
    isDouble_mk (-1) 1078 (by norm_num) (by norm_num) _ (by norm_num)
  have hq : IsDouble (4 * M_PI) :=
    isDouble_mk 7074237752028440 1025 (by norm_num) (by norm_num) _ (by unfold M_PI; norm_num)
  have h24 : IsDouble (1 / 2 ^ 24) :=
    isDouble_mk 1 1050 (by norm_num) (by norm_num) _ (by norm_num)
  have h1d : IsDouble 1 :=
    isDouble_mk 1 1074 (by norm_num) (by norm_num) _ (by norm_num)
  have hud : IsDouble (1 - 1 / 2 ^ 24) :=
    isDouble_mk (2 ^ 24 - 1) 1050 (by norm_num) (by norm_num) _ (by norm_num)
  have hD : IsDouble (4 * M_PI - 1 / 2 ^ 30) :=
    isDouble_mk (7074237752028440 - 2 ^ 19) 1025 (by norm_num) (by norm_num) _
      (by unfold M_PI; norm_num)
  have hD2 : IsDouble ((4 * M_PI - 1 / 2 ^ 30) * 2 ^ 1020) :=
    isDouble_mk (7074237752028440 - 2 ^ 19) 2045 (by norm_num) (by norm_num) _
      (by unfold M_PI; norm_num)
  have hkne : (1 : ℝ) / 2 ^ 1020 ≠ 0 := by positivity
  have hexp1 : Real.exp (-16) ≤ 1 := Real.exp_le_one_iff.mpr (by norm_num)
  have hexplt : |Real.exp (-16)| < overflowThreshold := by
    rw [abs_of_pos (Real.exp_pos _)]
    linarith
  have h0d : IsDouble 0 :=
    isDouble_mk 0 0 (by norm_num) (by norm_num) _ (by norm_num)
  have hexp16 : (1 : ℝ) / 2 ^ 24 ≤ Real.exp (-16) := by
    have h1 : Real.exp 1 < 2.72 := lt_trans Real.exp_one_lt_d9 (by norm_num)
    have h2 : Real.exp 16 = Real.exp 1 ^ 16 := by
      rw [← Real.exp_nat_mul]
      norm_num
    have h3 : Real.exp 1 ^ 16 ≤ (2.72 : ℝ) ^ 16 :=
      pow_le_pow_left₀ (Real.exp_pos 1).le h1.le 16
    have h4 : Real.exp 16 ≤ 2 ^ 24 := by
      rw [h2]
      refine h3.trans ?_
      norm_num
    rw [Real.exp_neg, one_div]
    exact inv_anti₀ (Real.exp_pos 16) h4
  constructor
  · obtain ⟨e, he⟩ := exists_rounds (Real.exp (-16))
    obtain ⟨ed, rfl, _⟩ := rounds_finite_of_abs_lt hexplt he
    have hed_lo : 0 ≤ ed := rounds_finite_ge he h0d (Real.exp_pos _).le
    have hed_hi : ed ≤ 1 := rounds_finite_le he h1d hexp1
    have hult : |1 - ed| < overflowThreshold := by
      rw [abs_of_nonneg (by linarith)]
      linarith
    obtain ⟨u, hu⟩ := exists_rounds (1 - ed)
    obtain ⟨ud, rfl, _⟩ := rounds_finite_of_abs_lt hult hu
    have hud_hi : ud ≤ 1 := rounds_finite_le hu h1d (by linarith)
    have hud_lo : 0 ≤ ud := rounds_finite_ge hu h0d (by linarith)
    obtain ⟨p, hp⟩ := exists_rounds (4 * M_PI * ud)
    have hplt : |4 * M_PI * ud| < overflowThreshold := by
      rw [abs_of_nonneg (by nlinarith [hpi.1])]
      nlinarith [hpi.2]
    obtain ⟨pd, rfl, _⟩ := rounds_finite_of_abs_lt hplt hp
    obtain ⟨r, hr⟩ := exists_rounds (pd / (1 / 2 ^ 1020))
    refine ⟨r, ?_⟩
    delta erfcTilde_double
    simp only [hwne, ne_eq, not_false_eq_true, if_true]
    refine ⟨.finite (-0.25 * (1 / 2 ^ 1020)), .finite (-16), .finite ed, .finite ud,
      .finite (4 * M_PI), .finite pd, ?_, ?_, ?_, ?_, ?_, ?_, ?_⟩
    · exact (rounds_of_isDouble ht _).mpr rfl
    · refine ⟨hwne, ?_⟩
      rw [hav]
      exact (rounds_of_isDouble ha _).mpr rfl
    · exact he
    · exact hu
    · exact (rounds_of_isDouble hq _).mpr rfl
    · exact hp
    · exact ⟨hkne, hr⟩
  · intro r h
    delta erfcTilde_double at h
    simp only [hwne, ne_eq, not_false_eq_true, if_true] at h
    obtain ⟨t, a, e, u, q, p, h1, h2, h3, h4, h5, h6, h7⟩ := h
    have h1v := (rounds_of_isDouble ht _).mp h1
    subst h1v
    obtain ⟨_, h2v⟩ : (1 : ℝ) / 2 ^ 1026 ≠ 0
        ∧ Rounds (-0.25 * (1 / 2 ^ 1020) / (1 / 2 ^ 1026)) a := h2
    rw [hav, rounds_of_isDouble ha] at h2v
    subst h2v
    replace h3 : Rounds (Real.exp (-16)) e := h3
    obtain ⟨ed, rfl, hed⟩ := rounds_finite_of_abs_lt hexplt h3
    have hed_lo : 1 / 2 ^ 24 ≤ ed := rounds_finite_ge h3 h24 hexp16
    have hed_hi : ed ≤ 1 := rounds_finite_le h3 h1d hexp1
    replace h4 : Rounds (1 - ed) u := h4
    have hult : |1 - ed| < overflowThreshold := by
      rw [abs_of_nonneg (by linarith)]
      have : (0 : ℝ) < 1 / 2 ^ 24 := by positivity
      linarith
    obtain ⟨ud, rfl, _⟩ := rounds_finite_of_abs_lt hult h4
    have hud_hi : ud ≤ 1 - 1 / 2 ^ 24 := rounds_finite_le h4 hud (by linarith)
    have hud_lo : 0 ≤ ud := rounds_finite_ge h4 h0d (by linarith)
    have h5v := (rounds_of_isDouble hq _).mp h5
    subst h5v
    replace h6 : Rounds (4 * M_PI * ud) p := h6
    have hpx : 4 * M_PI * ud ≤ 4 * M_PI - 1 / 2 ^ 30 := by
      have h30 : (1 : ℝ) / 2 ^ 30 ≤ 4 * M_PI * (1 / 2 ^ 24) := by
        have : (1 : ℝ) / 2 ^ 30 = (1 / 2 ^ 6) * (1 / 2 ^ 24) := by norm_num
        rw [this]
        refine mul_le_mul_of_nonneg_right ?_ (by positivity)
        norm_num
        linarith [hpi.1]
      nlinarith [hpi.1]
    have hplt : |4 * M_PI * ud| < overflowThreshold := by
      rw [abs_of_nonneg (by nlinarith [hpi.1])]
      have : (0 : ℝ) < 1 / 2 ^ 30 := by positivity
      nlinarith [hpi.2]
    obtain ⟨pd, rfl, _⟩ := rounds_finite_of_abs_lt hplt h6
    have hpd : pd ≤ 4 * M_PI - 1 / 2 ^ 30 := rounds_finite_le h6 hD hpx
    replace h7 : (1 : ℝ) / 2 ^ 1020 ≠ 0 ∧ Rounds (pd / (1 / 2 ^ 1020)) r := h7
    intro d hd
    subst hd
    refine rounds_finite_le h7.2 hD2 ?_
    rw [one_div, div_inv_eq_mul]
    exact mul_le_mul_of_nonneg_right hpd (by positivity)

/-! ## Claims -/

/-- C1. `CoulombPeriodic_calc`: with `Gsq = metric_length_squared GGT iG`, the functor returns
`4π/Gsq` when `Gsq ≠ 0` and exactly `0` when `Gsq = 0`; the body with its division
instrumented never reports a zero divisor, i.e. the division is only evaluated with
`Gsq ≠ 0`. -/
theorem CoulombPeriodic_calc_spec (c : CoulombPeriodic_calc) (iG : Vector3Int)
    (GGT : Matrix3) :
    (metric_length_squared GGT iG ≠ 0 →
        c.call iG GGT = 4 * Real.pi / metric_length_squared GGT iG) ∧
      (metric_length_squared GGT iG = 0 → c.call iG GGT = 0) ∧
      c.call_checked iG GGT = some (c.call iG GGT) := by
  refine ⟨fun h => ?_, fun h => ?_, ?_⟩
  · unfold CoulombPeriodic_calc.call
    simp [h]
  · unfold CoulombPeriodic_calc.call
    simp [h]
  · by_cases h : metric_length_squared GGT iG = 0
    · unfold CoulombPeriodic_calc.call CoulombPeriodic_calc.call_checked
      simp [h]
    · unfold CoulombPeriodic_calc.call CoulombPeriodic_calc.call_checked checkedDiv
      simp [h]

/-- C1 at concrete inputs, identity metric: `iG = (0,0,0)` gives `0` and `iG = (1,0,0)`
(where `Gsq = 1`) gives `4π/1`, with the division evaluated at the divisor `1`. -/
theorem CoulombPeriodic_calc_spec_witness :
    CoulombPeriodic_calc.mk.call (0 : Vector3Int) identityMetric = 0 ∧
      CoulombPeriodic_calc.mk.call ![1, 0, 0] identityMetric = 4 * Real.pi / 1 ∧
      CoulombPeriodic_calc.mk.call_checked ![1, 0, 0] identityMetric
        = some (4 * Real.pi / 1) := by
  have h1 : metric_length_squared identityMetric ![1, 0, 0] = 1 := by
    simp [metric_length_squared_identityMetric]
  have h := CoulombPeriodic_calc_spec CoulombPeriodic_calc.mk ![1, 0, 0] identityMetric
  rw [h1] at h
  refine ⟨?_, h.1 one_ne_zero, ?_⟩
  · exact (CoulombPeriodic_calc_spec CoulombPeriodic_calc.mk 0 identityMetric).2.1
      (metric_length_squared_zero identityMetric)
  · rw [h.2.2, h.1 one_ne_zero]

/-- C2. `CoulombSpherical_calc(Rc)`: with `Gsq = metric_length_squared GGT iG`, the functor
returns `4π·(1 − cos(Rc·√Gsq))/Gsq` when `Gsq ≠ 0` and exactly `2π·Rc²` when `Gsq = 0`. -/
theorem CoulombSpherical_calc_spec (Rc : ℝ) (iG : Vector3Int) (GGT : Matrix3) :
    (metric_length_squared GGT iG ≠ 0 →
        (CoulombSpherical_calc.mk Rc).call iG GGT
          = 4 * Real.pi * (1 - Real.cos (Rc * Real.sqrt (metric_length_squared GGT iG)))
              / metric_length_squared GGT iG) ∧
      (metric_length_squared GGT iG = 0 →
        (CoulombSpherical_calc.mk Rc).call iG GGT = 2 * Real.pi * Rc ^ 2) := by
  exact ⟨fun h => CoulombSpherical_call_of_ne_zero ⟨Rc⟩ iG GGT h,
    fun h => CoulombSpherical_call_of_eq_zero ⟨Rc⟩ iG GGT h⟩

/-- C2 at concrete inputs, identity metric and `Rc = 5`: `iG = (0,0,0)` gives `2π·5²` and
`iG = (1,0,0)` (where `Gsq = 1`) gives `4π·(1 − cos(5·√1))/1`. -/
theorem CoulombSpherical_calc_spec_witness :
    (CoulombSpherical_calc.mk 5).call (0 : Vector3Int) identityMetric
        = 2 * Real.pi * (5 : ℝ) ^ 2 ∧
      (CoulombSpherical_calc.mk 5).call ![1, 0, 0] identityMetric
        = 4 * Real.pi * (1 - Real.cos (5 * Real.sqrt 1)) / 1 := by
  have h1 : metric_length_squared identityMetric ![1, 0, 0] = 1 := by
    simp [metric_length_squared_identityMetric]
  have h := CoulombSpherical_calc_spec 5 ![1, 0, 0] identityMetric
  rw [h1] at h
  exact ⟨(CoulombSpherical_calc_spec 5 0 identityMetric).2
    (metric_length_squared_zero identityMetric), h.1 one_ne_zero⟩

/-- C3. `CoulombSlab_calc(iDir, hlfL)`: with `Gsq = metric_length_squared GGT iG` and `Gplane`
the clamped square root computed by the functor, the result is
`4π·(1 − exp(−Gplane·hlfL)·cos(π·iG[iDir]))/Gsq` when `Gsq ≠ 0` and exactly `−2π·hlfL²`
when `Gsq = 0`. -/
theorem CoulombSlab_calc_spec (iDir : Fin 3) (hlfL : ℝ) (iG : Vector3Int) (GGT : Matrix3) :
    (metric_length_squared GGT iG ≠ 0 →
        (CoulombSlab_calc.mk iDir hlfL).call iG GGT
          = 4 * Real.pi
              * (1 - Real.exp (-((CoulombSlab_calc.mk iDir hlfL).Gplane iG GGT) * hlfL)
                      * Real.cos (Real.pi * (iG iDir : ℝ)))
              / metric_length_squared GGT iG) ∧
      (metric_length_squared GGT iG = 0 →
        (CoulombSlab_calc.mk iDir hlfL).call iG GGT = -(2 * Real.pi * hlfL ^ 2)) := by
  exact ⟨fun h => CoulombSlab_call_of_ne_zero ⟨iDir, hlfL⟩ iG GGT h,
    fun h => CoulombSlab_call_of_eq_zero ⟨iDir, hlfL⟩ iG GGT h⟩

/-- C3 at a concrete input, identity metric, `iDir = 2`, `hlfL = 3`, `iG = (0,0,0)`: the
slab kernel returns `−2π·3²`. -/
theorem CoulombSlab_calc_spec_witness :
    (CoulombSlab_calc.mk 2 3).call (0 : Vector3Int) identityMetric
      = -(2 * Real.pi * (3 : ℝ) ^ 2) :=
  (CoulombSlab_calc_spec 2 3 0 identityMetric).2 (metric_length_squared_zero identityMetric)

/-- C4, as stated, fails: with the identity metric (symmetric positive semi-definite),
`hlfL = 1 > 0` and `iG = 0`, the slab kernel returns `−2π < 0`. -/
theorem Coulomb_calc_nonneg_counterexample :
    IsSymmPSD identityMetric ∧ (0 : ℝ) < 1 ∧
      (CoulombSlab_calc.mk 0 1).call (0 : Vector3Int) identityMetric = -(2 * Real.pi) ∧
      ¬ (0 ≤ (CoulombSlab_calc.mk 0 1).call (0 : Vector3Int) identityMetric) := by
  have hval : (CoulombSlab_calc.mk 0 1).call (0 : Vector3Int) identityMetric
      = -(2 * Real.pi) := by
    rw [CoulombSlab_call_of_eq_zero _ _ _ (metric_length_squared_zero identityMetric)]
    ring
  refine ⟨isSymmPSD_identityMetric, one_pos, hval, ?_⟩
  rw [hval]
  have := Real.pi_pos
  linarith

/-- C4 (amended). For a symmetric positive semi-definite `GGT` and `hlfL > 0` (any `Rc`, any
`iDir`): the periodic and the sphere-truncated kernels are non-negative at every `iG`; the
slab-truncated kernel is non-negative at every `iG` with `Gsq ≠ 0`, and at `Gsq = 0` it is
the negative number `−2π·hlfL²`. -/
theorem Coulomb_calc_nonneg (GGT : Matrix3) (hGGT : IsSymmPSD GGT) (iG : Vector3Int)
    (iDir : Fin 3) (hlfL Rc : ℝ) (hL : 0 < hlfL) :
    0 ≤ CoulombPeriodic_calc.mk.call iG GGT ∧
      0 ≤ (CoulombSpherical_calc.mk Rc).call iG GGT ∧
      (metric_length_squared GGT iG ≠ 0 →
        0 ≤ (CoulombSlab_calc.mk iDir hlfL).call iG GGT) ∧
      (metric_length_squared GGT iG = 0 →
        (CoulombSlab_calc.mk iDir hlfL).call iG GGT = -(2 * Real.pi * hlfL ^ 2) ∧
        (CoulombSlab_calc.mk iDir hlfL).call iG GGT < 0) := by
  have hG : 0 ≤ metric_length_squared GGT iG := metric_length_squared_nonneg hGGT iG
  have hpi : 0 < Real.pi := Real.pi_pos
  refine ⟨?_, ?_, fun h => ?_, fun h => ?_⟩
  · unfold CoulombPeriodic_calc.call
    simp only
    split_ifs
    · positivity
    · exact le_refl _
  · unfold CoulombSpherical_calc.call
    simp only
    split_ifs
    · have hc : 0 ≤ 1 - Real.cos (Rc * Real.sqrt (metric_length_squared GGT iG)) :=
        sub_nonneg.mpr (Real.cos_le_one _)
      positivity
    · have : 0 ≤ Rc * Rc := mul_self_nonneg Rc
      nlinarith
  · rw [CoulombSlab_call_of_ne_zero ⟨iDir, hlfL⟩ iG GGT h]
    simp only
    have hp : 0 ≤ (CoulombSlab_calc.mk iDir hlfL).Gplane iG GGT :=
      CoulombSlab_calc.Gplane_nonneg _ iG GGT
    have he1 : Real.exp (-((CoulombSlab_calc.mk iDir hlfL).Gplane iG GGT) * hlfL) ≤ 1 := by
      rw [Real.exp_le_one_iff]
      nlinarith
    have he0 : 0 ≤ Real.exp (-((CoulombSlab_calc.mk iDir hlfL).Gplane iG GGT) * hlfL) :=
      (Real.exp_pos _).le
    have hc : Real.cos (Real.pi * (iG iDir : ℝ)) ≤ 1 := Real.cos_le_one _
    have hprod : Real.exp (-((CoulombSlab_calc.mk iDir hlfL).Gplane iG GGT) * hlfL)
        * Real.cos (Real.pi * (iG iDir : ℝ)) ≤ 1 := by
      nlinarith
    have hnum : 0 ≤ 1 - Real.exp (-((CoulombSlab_calc.mk iDir hlfL).Gplane iG GGT) * hlfL)
        * Real.cos (Real.pi * (iG iDir : ℝ)) := sub_nonneg.mpr hprod
    positivity
  · have hv : (CoulombSlab_calc.mk iDir hlfL).call iG GGT = -(2 * Real.pi * hlfL ^ 2) :=
      CoulombSlab_call_of_eq_zero ⟨iDir, hlfL⟩ iG GGT h
    refine ⟨hv, ?_⟩
    rw [hv]
    have : 0 < 2 * Real.pi * hlfL ^ 2 := by positivity
    linarith

/-- C4 (amended), at a concrete input: identity metric, `iG = (0,0,0)`, `hlfL = 1`. -/
theorem Coulomb_calc_nonneg_witness :
    0 ≤ CoulombPeriodic_calc.mk.call (0 : Vector3Int) identityMetric ∧
      0 ≤ (CoulombSpherical_calc.mk 5).call (0 : Vector3Int) identityMetric ∧
      (metric_length_squared identityMetric (0 : Vector3Int) ≠ 0 →
        0 ≤ (CoulombSlab_calc.mk 2 1).call (0 : Vector3Int) identityMetric) ∧
      (metric_length_squared identityMetric (0 : Vector3Int) = 0 →
        (CoulombSlab_calc.mk 2 1).call (0 : Vector3Int) identityMetric
            = -(2 * Real.pi * (1 : ℝ) ^ 2) ∧
        (CoulombSlab_calc.mk 2 1).call (0 : Vector3Int) identityMetric < 0) :=
  Coulomb_calc_nonneg identityMetric isSymmPSD_identityMetric 0 2 1 5 one_pos

/-- C5. `ExchangeSphericalScreened_calc(coeff, dGinv, nSamples)`: for `kSq ≥ 0` and
`t = dGinv·√kSq`, the functor returns exactly `0` when `t ≥ nSamples` and
`QuinticSpline::value(coeff, t)` when `t < nSamples`; the traced body returns the same value
and every recorded call of the spline evaluator is at a position strictly below
`nSamples`. -/
theorem ExchangeSphericalScreened_calc_spec {Coeff : Type} (value : Coeff → ℝ → ℝ)
    (coeff : Coeff) (dGinv : ℝ) (nSamples : ℕ) (kSq : ℝ) (_hk : 0 ≤ kSq) :
    (dGinv * Real.sqrt kSq ≥ (nSamples : ℝ) →
        (ExchangeSphericalScreened_calc.mk coeff dGinv nSamples).call value kSq = 0) ∧
      (dGinv * Real.sqrt kSq < (nSamples : ℝ) →
        (ExchangeSphericalScreened_calc.mk coeff dGinv nSamples).call value kSq
          = value coeff (dGinv * Real.sqrt kSq)) ∧
      ((ExchangeSphericalScreened_calc.mk coeff dGinv nSamples).call_traced value kSq).1
          = (ExchangeSphericalScreened_calc.mk coeff dGinv nSamples).call value kSq ∧
      ∀ s ∈ ((ExchangeSphericalScreened_calc.mk coeff dGinv nSamples).call_traced
                value kSq).2, s < (nSamples : ℝ) := by
  by_cases h : dGinv * Real.sqrt kSq ≥ (nSamples : ℝ)
  · have h' : ¬ dGinv * Real.sqrt kSq < (nSamples : ℝ) := not_lt.mpr h
    unfold ExchangeSphericalScreened_calc.call ExchangeSphericalScreened_calc.call_traced
    simp [h, h']
  · have h' : dGinv * Real.sqrt kSq < (nSamples : ℝ) := not_le.mp h
    unfold ExchangeSphericalScreened_calc.call ExchangeSphericalScreened_calc.call_traced
    simp [h', not_le.mpr h']

/-- C5 at concrete inputs: spacing `dGinv = 1`, table of `2` samples, `kSq = 1` (so `t = 1`,
inside the table), with the evaluator `fun _ t => t + 7`. -/
theorem ExchangeSphericalScreened_calc_spec_witness :
    (0 : ℝ) ≤ 1 ∧
      (ExchangeSphericalScreened_calc.mk () 1 2).call (fun _ t => t + 7) 1 = 8 := by
  refine ⟨zero_le_one, ?_⟩
  have h := (ExchangeSphericalScreened_calc_spec (fun (_ : Unit) (t : ℝ) => t + 7) () 1 2 1
    zero_le_one).2.1
  rw [h (by simp)]
  norm_num

/-- C6, as stated, fails: at `x = 0` (where `x² < 1e-6`) the function returns `2/√π`, not
the value `(2/√π)·(2 − x²·(2/3 + x²/5)) = 4/√π` of the stated polynomial. -/
theorem erf_by_x_counterexample :
    (0 : ℝ) ^ 2 < 1e-6 ∧ erf_by_x 0 = 2 / Real.sqrt Real.pi ∧
      erf_by_x 0 ≠ (2 / Real.sqrt Real.pi) * (2 - (0 : ℝ) ^ 2 * (2 / 3 + (0 : ℝ) ^ 2 / 5)) := by
  have hs : 0 < Real.sqrt Real.pi := Real.sqrt_pos.mpr Real.pi_pos
  have hv : erf_by_x 0 = 2 / Real.sqrt Real.pi := by
    unfold erf_by_x
    norm_num
    ring
  refine ⟨by norm_num, hv, ?_⟩
  rw [hv]
  intro h
  have h2 : (2 / Real.sqrt Real.pi) * (2 - (0 : ℝ) ^ 2 * (2 / 3 + (0 : ℝ) ^ 2 / 5))
      = 2 * (2 / Real.sqrt Real.pi) := by ring
  rw [h2] at h
  have hpos : 0 < 2 / Real.sqrt Real.pi := by positivity
  linarith

/-- C6 (amended). `erf_by_x`: for `x² < 1e-6` the function returns
`(1/√π)·(2 − x²·(2/3 + x²/5))`, and for `x² ≥ 1e-6` it returns `erf(x)/x`. -/
theorem erf_by_x_spec (x : ℝ) :
    (x ^ 2 < 1e-6 →
        erf_by_x x = (1 / Real.sqrt Real.pi) * (2 - x ^ 2 * (2 / 3 + x ^ 2 / 5))) ∧
      (x ^ 2 ≥ 1e-6 → erf_by_x x = erf x / x) := by
  refine ⟨fun h => ?_, fun h => ?_⟩
  · have h' : x * x < 1e-6 := by rwa [← sq]
    unfold erf_by_x
    simp only [h', if_true]
    ring
  · have h' : ¬ x * x < 1e-6 := by rw [← sq]; exact not_lt.mpr h
    unfold erf_by_x
    simp only [h', if_false]

/-- C7. Accuracy of `erf_by_x` (doubles as reals, `erf(x) = (2/√π)∫₀ˣ exp(−s²) ds`): for
`x` in `[1e-4, 10]`, `|erf_by_x(x) − erf(x)/x| ≤ 1e-12`; on the polynomial branch
`1e-4 ≤ x < 1e-3` the function is the polynomial and the polynomial differs from `erf(x)/x`
by at most `1e-12`; and the jump at the crossover `x = 1e-3` (polynomial value there against
the value `erf_by_x(1e-3) = erf(1e-3)/1e-3` the function takes) is at most `1e-12`. -/
theorem erf_by_x_accuracy (x : ℝ) (hlo : 1e-4 ≤ x) (_hhi : x ≤ 10) :
    |erf_by_x x - erf x / x| ≤ 1e-12 ∧
      (x < 1e-3 →
        erf_by_x x = (1 / Real.sqrt Real.pi) * (2 - x * x * (2 / 3 + 0.2 * (x * x))) ∧
        |(1 / Real.sqrt Real.pi) * (2 - x * x * (2 / 3 + 0.2 * (x * x))) - erf x / x|
          ≤ 1e-12) ∧
      erf_by_x 1e-3 = erf 1e-3 / 1e-3 ∧
      |(1 / Real.sqrt Real.pi) * (2 - 1e-3 * 1e-3 * (2 / 3 + 0.2 * (1e-3 * 1e-3)))
          - erf_by_x 1e-3| ≤ 1e-12 := by
  have hx0 : 0 < x := lt_of_lt_of_le (by norm_num) hlo
  have hcross : erf_by_x 1e-3 = erf 1e-3 / 1e-3 := by
    unfold erf_by_x
    norm_num
  refine ⟨?_, fun h3 => ?_, hcross, ?_⟩
  · by_cases h : x * x < 1e-6
    · have h3 : x ≤ 1e-3 := by
        by_contra hc
        have hc' : 1e-3 < x := not_le.mp hc
        have : (1e-3 : ℝ) * 1e-3 < x * x := by nlinarith
        norm_num at this h
        linarith
      have hb : erf_by_x x = (1 / Real.sqrt Real.pi) * (2 - x * x * (2 / 3 + 0.2 * (x * x))) := by
        unfold erf_by_x
        simp only [h, if_true]
      rw [hb]
      exact erf_poly_close x hx0 h3
    · have hb : erf_by_x x = erf x / x := by
        unfold erf_by_x
        simp only [h, if_false]
      rw [hb, sub_self, abs_zero]
      norm_num
  · have h : x * x < 1e-6 := by
      have : x * x < 1e-3 * 1e-3 := by nlinarith
      norm_num at this ⊢
      exact this
    refine ⟨?_, erf_poly_close x hx0 h3.le⟩
    unfold erf_by_x
    simp only [h, if_true]
  · rw [hcross]
    exact erf_poly_close 1e-3 (by norm_num) (le_refl _)

/-- C7 at the concrete input `x = 5e-4`, on the polynomial branch. -/
theorem erf_by_x_accuracy_witness :
    (1e-4 : ℝ) ≤ 5e-4 ∧ (5e-4 : ℝ) ≤ 10 ∧ |erf_by_x 5e-4 - erf 5e-4 / 5e-4| ≤ 1e-12 :=
  ⟨by norm_num, by norm_num, (erf_by_x_accuracy 5e-4 (by norm_num) (by norm_num)).1⟩

/-- C8. `erfcTilde(Gsq, omegaSq)`: for `Gsq ≠ 0` the function returns
`4π·(1 − exp(−Gsq/(4·omegaSq)))/Gsq` when `omegaSq ≠ 0`, and `4π/Gsq` when `omegaSq = 0`. -/
theorem erfcTilde_spec (Gsq omegaSq : ℝ) (_hG : Gsq ≠ 0) :
    (omegaSq ≠ 0 →
        erfcTilde Gsq omegaSq = 4 * Real.pi * (1 - Real.exp (-Gsq / (4 * omegaSq))) / Gsq) ∧
      (omegaSq = 0 → erfcTilde Gsq omegaSq = 4 * Real.pi / Gsq) := by
  refine ⟨fun h => ?_, fun h => ?_⟩
  · have e : -0.25 * Gsq / omegaSq = -Gsq / (4 * omegaSq) := by
      field_simp
      ring
    unfold erfcTilde
    simp only [h, ne_eq, not_false_eq_true, if_true, e]
  · unfold erfcTilde
    simp [h]

/-- C8 at concrete inputs: `Gsq = 2`, with screening (`omegaSq = 1`) and without
(`omegaSq = 0`). -/
theorem erfcTilde_spec_witness :
    erfcTilde 2 1 = 4 * Real.pi * (1 - Real.exp (-2 / (4 * 1))) / 2 ∧
      erfcTilde 2 0 = 4 * Real.pi / 2 :=
  ⟨(erfcTilde_spec 2 1 two_ne_zero).1 one_ne_zero, (erfcTilde_spec 2 0 two_ne_zero).2 rfl⟩

/-- C9. `ExchangePeriodicScreened_calc(ω)`, limits in the screening parameter, for fixed
`kSq > 0`: for `ω ≠ 0` the functor's value is `4π·(1 − exp(−kSq/(4ω²)))/kSq`; it tends to
the unscreened periodic exchange `4π/kSq` as `ω → 0⁺`; its relative error against the
unscreened value is exactly `exp(−kSq/(4ω²))`, hence below `1e-9` whenever
`kSq/(4ω²) ≥ 21`; and it tends to `0` as `ω → ∞`. -/
theorem ExchangePeriodicScreened_calc_limits (kSq : ℝ) (hk : 0 < kSq) :
    (∀ omega : ℝ, omega ≠ 0 →
        (ExchangePeriodicScreened_calc.ctor omega).call kSq
          = 4 * Real.pi * (1 - Real.exp (-(kSq / (4 * omega ^ 2)))) / kSq) ∧
      ExchangePeriodic_calc.mk.call kSq = 4 * Real.pi / kSq ∧
      Tendsto (fun omega : ℝ => (ExchangePeriodicScreened_calc.ctor omega).call kSq) (𝓝[>] 0)
        (𝓝 (ExchangePeriodic_calc.mk.call kSq)) ∧
      (∀ omega : ℝ, omega ≠ 0 →
        |(ExchangePeriodicScreened_calc.ctor omega).call kSq - ExchangePeriodic_calc.mk.call kSq|
            / |ExchangePeriodic_calc.mk.call kSq|
          = Real.exp (-(kSq / (4 * omega ^ 2)))) ∧
      (∀ omega : ℝ, omega ≠ 0 → 21 ≤ kSq / (4 * omega ^ 2) →
        |(ExchangePeriodicScreened_calc.ctor omega).call kSq - ExchangePeriodic_calc.mk.call kSq|
            / |ExchangePeriodic_calc.mk.call kSq| < 1e-9) ∧
      Tendsto (fun omega : ℝ => (ExchangePeriodicScreened_calc.ctor omega).call kSq) atTop
        (𝓝 0) := by
  have hpi : 0 < Real.pi := Real.pi_pos
  have hP : ExchangePeriodic_calc.mk.call kSq = 4 * Real.pi / kSq := rfl
  have hPpos : 0 < 4 * Real.pi / kSq := by positivity
  have hrel : ∀ omega : ℝ,
      |(ExchangePeriodicScreened_calc.ctor omega).call kSq - ExchangePeriodic_calc.mk.call kSq|
            / |ExchangePeriodic_calc.mk.call kSq|
          = Real.exp (-(kSq / (4 * omega ^ 2))) := by
    intro omega
    rw [ExchangePeriodicScreened_calc.call_ctor, hP, abs_of_pos hPpos]
    have e : 4 * Real.pi * (1 - Real.exp (-(kSq / (4 * omega ^ 2)))) / kSq - 4 * Real.pi / kSq
        = -(Real.exp (-(kSq / (4 * omega ^ 2))) * (4 * Real.pi / kSq)) := by
      ring
    rw [e, abs_neg, abs_mul, abs_of_pos hPpos, abs_of_pos (Real.exp_pos _)]
    field_simp
  refine ⟨fun omega _ => ExchangePeriodicScreened_calc.call_ctor omega kSq, hP, ?_,
    fun omega _ => hrel omega, fun omega _ h21 => ?_, ?_⟩
  · have h1 : Tendsto (fun omega : ℝ => Real.exp (-(kSq / (4 * omega ^ 2)))) (𝓝[>] 0) (𝓝 0) :=
      Real.tendsto_exp_neg_atTop_nhds_zero.comp (tendsto_screen_exponent_zero kSq hk)
    have h2 : Tendsto (fun omega : ℝ =>
        4 * Real.pi * (1 - Real.exp (-(kSq / (4 * omega ^ 2)))) / kSq) (𝓝[>] 0)
        (𝓝 (4 * Real.pi * (1 - 0) / kSq)) :=
      ((h1.const_sub 1).const_mul (4 * Real.pi)).div_const kSq
    rw [sub_zero, mul_one] at h2
    rw [hP]
    refine h2.congr (fun omega => ?_)
    rw [ExchangePeriodicScreened_calc.call_ctor]
  · rw [hrel omega]
    refine lt_of_le_of_lt ?_ exp_neg_21_lt
    rw [Real.exp_le_exp]
    linarith
  · have h0 : Tendsto (fun omega : ℝ => -(kSq / (4 * omega ^ 2))) atTop (𝓝 (-0)) :=
      (tendsto_screen_exponent_atTop kSq).neg
    rw [neg_zero] at h0
    have h1 : Tendsto (fun omega : ℝ => Real.exp (-(kSq / (4 * omega ^ 2)))) atTop
        (𝓝 (Real.exp 0)) :=
      (Real.continuous_exp.tendsto 0).comp h0
    rw [Real.exp_zero] at h1
    have h2 : Tendsto (fun omega : ℝ =>
        4 * Real.pi * (1 - Real.exp (-(kSq / (4 * omega ^ 2)))) / kSq) atTop
        (𝓝 (4 * Real.pi * (1 - 1) / kSq)) :=
      ((h1.const_sub 1).const_mul (4 * Real.pi)).div_const kSq
    rw [sub_self, mul_zero, zero_div] at h2
    refine h2.congr (fun omega => ?_)
    rw [ExchangePeriodicScreened_calc.call_ctor]

/-- C9 at the concrete input `kSq = 1`: the screened value vanishes as `ω → ∞`, and at
`ω = 1/10` (where `kSq/(4ω²) = 25 ≥ 21`) the relative error is below `1e-9`. -/
theorem ExchangePeriodicScreened_calc_limits_witness :
    (0 : ℝ) < 1 ∧
      Tendsto (fun omega : ℝ => (ExchangePeriodicScreened_calc.ctor omega).call 1) atTop
        (𝓝 0) ∧
      |(ExchangePeriodicScreened_calc.ctor (1 / 10)).call 1 - ExchangePeriodic_calc.mk.call 1|
          / |ExchangePeriodic_calc.mk.call 1| < 1e-9 :=
  ⟨one_pos, (ExchangePeriodicScreened_calc_limits 1 one_pos).2.2.2.2.2,
    (ExchangePeriodicScreened_calc_limits 1 one_pos).2.2.2.2.1 (1 / 10) (by norm_num)
      (by norm_num)⟩

/-- C10. Sphere-truncated kernels, zero-wavevector limit: for every `Rc`, the generic formula
`4π·(1 − cos(Rc·√x))/x` — which is what `ExchangeSpherical_calc` returns at every `x`, and
what `CoulombSpherical_calc` returns at every `iG` with `Gsq = x ≠ 0` — converges, as
`x → 0` through positive values, to `2π·Rc²`, the closed-form value `CoulombSpherical_calc`
returns at `Gsq = 0`. -/
theorem spherical_zero_wavevector_limit (Rc : ℝ) (GGT : Matrix3) :
    Tendsto (fun x : ℝ => 4 * Real.pi * (1 - Real.cos (Rc * Real.sqrt x)) / x) (𝓝[>] 0)
        (𝓝 (2 * Real.pi * Rc ^ 2)) ∧
      (∀ x : ℝ, (ExchangeSpherical_calc.mk Rc).call x
        = 4 * Real.pi * (1 - Real.cos (Rc * Real.sqrt x)) / x) ∧
      (∀ iG : Vector3Int, metric_length_squared GGT iG ≠ 0 →
        (CoulombSpherical_calc.mk Rc).call iG GGT
          = 4 * Real.pi * (1 - Real.cos (Rc * Real.sqrt (metric_length_squared GGT iG)))
              / metric_length_squared GGT iG) ∧
      (∀ iG : Vector3Int, metric_length_squared GGT iG = 0 →
        (CoulombSpherical_calc.mk Rc).call iG GGT = 2 * Real.pi * Rc ^ 2) ∧
      (CoulombSpherical_calc.mk Rc).call (0 : Vector3Int) GGT = 2 * Real.pi * Rc ^ 2 :=
  ⟨tendsto_spherical_generic Rc, fun _ => rfl,
    fun iG h => CoulombSpherical_call_of_ne_zero ⟨Rc⟩ iG GGT h,
    fun iG h => CoulombSpherical_call_of_eq_zero ⟨Rc⟩ iG GGT h,
    CoulombSpherical_call_of_eq_zero ⟨Rc⟩ 0 GGT (metric_length_squared_zero GGT)⟩

/-- C11, as stated, fails: with `hlfL = 1`, `iDir = 2`, `iG = (1,0,0)` (so `iG[iDir] = 0`) and
the metric `g²·I` (so `Gsq = Gplane² = g²`), the slab kernel tends to `+∞` as `g → 0⁺`; it
does not converge to `−2π·hlfL²`. -/
theorem slab_zero_wavevector_limit_counterexample :
    (0 : ℝ) < 1 ∧
      (∀ g : ℝ, ((![1, 0, 0] : Vector3Int) 2 = 0) ∧
        metric_length_squared (scalarMetric (g ^ 2)) ![1, 0, 0] = g ^ 2) ∧
      Tendsto (fun g : ℝ => (CoulombSlab_calc.mk 2 1).call ![1, 0, 0] (scalarMetric (g ^ 2)))
        (𝓝[>] 0) atTop ∧
      ¬ Tendsto (fun g : ℝ => (CoulombSlab_calc.mk 2 1).call ![1, 0, 0] (scalarMetric (g ^ 2)))
        (𝓝[>] 0) (𝓝 (-(2 * Real.pi * (1 : ℝ) ^ 2))) := by
  have hm : ∀ g : ℝ, metric_length_squared (scalarMetric (g ^ 2)) ![1, 0, 0] = g ^ 2 := by
    intro g
    rw [metric_length_squared_scalarMetric]
    simp
  have ht : Tendsto (fun g : ℝ =>
      (CoulombSlab_calc.mk 2 1).call ![1, 0, 0] (scalarMetric (g ^ 2))) (𝓝[>] 0) atTop := by
    refine (tendsto_slab_generic_atTop 1 one_pos).congr' ?_
    filter_upwards [self_mem_nhdsWithin] with g hg
    rw [CoulombSlab_call_in_plane ⟨2, 1⟩ ![1, 0, 0] (scalarMetric (g ^ 2)) g hg rfl (hm g)]
  exact ⟨one_pos, fun g => ⟨rfl, hm g⟩, ht, not_tendsto_nhds_of_tendsto_atTop ht _⟩

/-- C11 (amended). For `hlfL > 0`: at every `iG` with `iG[iDir] = 0` and `Gsq = G²`, `G > 0`,
the slab kernel is the generic formula `4π·(1 − exp(−G·hlfL))/G²`; as `G → 0⁺` that formula
tends to `+∞`, and after the divergent term `4π·hlfL/G` is subtracted it converges to
`−2π·hlfL²`, the closed-form value `CoulombSlab_calc` returns at `Gsq = 0`. -/
theorem slab_zero_wavevector_limit (hlfL : ℝ) (hL : 0 < hlfL) (iDir : Fin 3) :
    (∀ (iG : Vector3Int) (GGT : Matrix3) (G : ℝ), 0 < G → iG iDir = 0 →
        metric_length_squared GGT iG = G ^ 2 →
        (CoulombSlab_calc.mk iDir hlfL).call iG GGT
          = 4 * Real.pi * (1 - Real.exp (-G * hlfL)) / G ^ 2) ∧
      Tendsto (fun G : ℝ => 4 * Real.pi * (1 - Real.exp (-G * hlfL)) / G ^ 2) (𝓝[>] 0) atTop ∧
      Tendsto (fun G : ℝ =>
          4 * Real.pi * (1 - Real.exp (-G * hlfL)) / G ^ 2 - 4 * Real.pi * hlfL / G)
        (𝓝[>] 0) (𝓝 (-(2 * Real.pi * hlfL ^ 2))) ∧
      (∀ (iG : Vector3Int) (GGT : Matrix3), metric_length_squared GGT iG = 0 →
        (CoulombSlab_calc.mk iDir hlfL).call iG GGT = -(2 * Real.pi * hlfL ^ 2)) :=
  ⟨fun iG GGT G hG h0 hsq => CoulombSlab_call_in_plane ⟨iDir, hlfL⟩ iG GGT G hG h0 hsq,
    tendsto_slab_generic_atTop hlfL hL, tendsto_slab_regularized hlfL,
    fun iG GGT h => CoulombSlab_call_of_eq_zero ⟨iDir, hlfL⟩ iG GGT h⟩

/-- C11 (amended) at the concrete half-length `hlfL = 1`, direction `iDir = 2`. -/
theorem slab_zero_wavevector_limit_witness :
    (0 : ℝ) < 1 ∧
      Tendsto (fun G : ℝ =>
          4 * Real.pi * (1 - Real.exp (-G * 1)) / G ^ 2 - 4 * Real.pi * 1 / G)
        (𝓝[>] 0) (𝓝 (-(2 * Real.pi * (1 : ℝ) ^ 2))) :=
  ⟨one_pos, (slab_zero_wavevector_limit 1 one_pos 2).2.2.1⟩

/-- C12, as stated, fails: with `GGT = I` the point `iG = (1,0,0)` has `Gsq = 1` and the
periodic kernel yields `4π`, not `4π/(2π)²`; and `4π/(2π)²` is not approximately `0.1013`
(it is more than `0.2` away). -/
theorem periodic_scenario_counterexample :
    CoulombPeriodic_calc.mk.call ![1, 0, 0] identityMetric = 4 * Real.pi ∧
      CoulombPeriodic_calc.mk.call ![1, 0, 0] identityMetric
        ≠ 4 * Real.pi / (2 * Real.pi) ^ 2 ∧
      ¬ (|4 * Real.pi / (2 * Real.pi) ^ 2 - 0.1013| < 0.2) := by
  have hpi : 0 < Real.pi := Real.pi_pos
  have h3 : 3 < Real.pi := Real.pi_gt_three
  have h4 : Real.pi < 4 := Real.pi_lt_four
  have h1 : metric_length_squared identityMetric ![1, 0, 0] = 1 := by
    simp [metric_length_squared_identityMetric]
  have hv : CoulombPeriodic_calc.mk.call ![1, 0, 0] identityMetric = 4 * Real.pi := by
    rw [CoulombPeriodic_call_of_ne_zero _ _ _ (by rw [h1]; exact one_ne_zero), h1, div_one]
  have hinv : 4 * Real.pi / (2 * Real.pi) ^ 2 = 1 / Real.pi := by
    field_simp
    ring
  have hlt : 1 / Real.pi < 1 := by
    rw [div_lt_one hpi]
    linarith
  have hgt : 0.31 < 1 / Real.pi := by
    rw [lt_div_iff₀ hpi]
    have := Real.pi_lt_d2
    norm_num at this ⊢
    linarith
  refine ⟨hv, ?_, ?_⟩
  · rw [hv, hinv]
    intro h
    linarith
  · rw [hinv, abs_lt]
    intro h
    have := h.2
    norm_num at this hgt
    linarith

/-- C12 (amended). Periodic Coulomb scenario: with `GGT = I`, `CoulombPeriodic_calc` yields `0`
at `iG = (0,0,0)` and `4π` at `iG = (1,0,0)` (where `Gsq = 1`); with `GGT = (2π)²·I`, where
`Gsq = (2π)²` at `iG = (1,0,0)`, it yields `4π/(2π)² = 1/π`, which is `0.3183` to within
`1e-4`. -/
theorem periodic_scenario :
    CoulombPeriodic_calc.mk.call (0 : Vector3Int) identityMetric = 0 ∧
      CoulombPeriodic_calc.mk.call ![1, 0, 0] identityMetric = 4 * Real.pi ∧
      metric_length_squared (scalarMetric ((2 * Real.pi) ^ 2)) ![1, 0, 0]
        = (2 * Real.pi) ^ 2 ∧
      CoulombPeriodic_calc.mk.call ![1, 0, 0] (scalarMetric ((2 * Real.pi) ^ 2))
        = 4 * Real.pi / (2 * Real.pi) ^ 2 ∧
      4 * Real.pi / (2 * Real.pi) ^ 2 = 1 / Real.pi ∧
      |4 * Real.pi / (2 * Real.pi) ^ 2 - 0.3183| < 1e-4 := by
  have hpi : 0 < Real.pi := Real.pi_pos
  have h1 : metric_length_squared identityMetric ![1, 0, 0] = 1 := by
    simp [metric_length_squared_identityMetric]
  have h2 : metric_length_squared (scalarMetric ((2 * Real.pi) ^ 2)) ![1, 0, 0]
      = (2 * Real.pi) ^ 2 := by
    rw [metric_length_squared_scalarMetric]
    simp
  have h2ne : metric_length_squared (scalarMetric ((2 * Real.pi) ^ 2)) ![1, 0, 0] ≠ 0 := by
    rw [h2]
    positivity
  have hinv : 4 * Real.pi / (2 * Real.pi) ^ 2 = 1 / Real.pi := by
    field_simp
    ring
  refine ⟨CoulombPeriodic_call_of_eq_zero _ _ _ (metric_length_squared_zero _), ?_, h2, ?_,
    hinv, ?_⟩
  · rw [CoulombPeriodic_call_of_ne_zero _ _ _ (by rw [h1]; exact one_ne_zero), h1, div_one]
  · rw [CoulombPeriodic_call_of_ne_zero _ _ _ h2ne, h2]
  · rw [hinv, abs_lt]
    have hlo := Real.pi_gt_d6
    have hhi := Real.pi_lt_d6
    constructor
    · rw [lt_sub_iff_add_lt, lt_div_iff₀ hpi]
      norm_num at hlo hhi ⊢
      linarith
    · rw [sub_lt_iff_lt_add, div_lt_iff₀ hpi]
      norm_num at hlo hhi ⊢
      linarith

/-- C14, as stated, fails: for the symmetric metric `shearMetric`, `iDir = 0` and
`iG = (1,1,0)`, the quantity under the square root, `Gsq − GGT(0,0)·iG[0]²`, is `4`, while the
quadratic form on `iG` with its `iDir` component set to zero is `2`. -/
theorem CoulombSlab_calc_Gplane_counterexample :
    (∀ i j, shearMetric i j = shearMetric j i) ∧
      metric_length_squared shearMetric ![1, 1, 0]
          - shearMetric 0 0 * (((![1, 1, 0] : Vector3Int) 0 : ℤ) : ℝ) ^ 2 = 4 ∧
      metric_length_squared shearMetric (Function.update (![1, 1, 0] : Vector3Int) 0 0) = 2 ∧
      metric_length_squared shearMetric ![1, 1, 0]
          - shearMetric 0 0 * (((![1, 1, 0] : Vector3Int) 0 : ℤ) : ℝ) ^ 2
        ≠ metric_length_squared shearMetric (Function.update (![1, 1, 0] : Vector3Int) 0 0) := by
  have ha : metric_length_squared shearMetric ![1, 1, 0]
          - shearMetric 0 0 * (((![1, 1, 0] : Vector3Int) 0 : ℤ) : ℝ) ^ 2 = 4 := by
    unfold metric_length_squared shearMetric
    simp [Fin.sum_univ_three]
    norm_num
  have hb : metric_length_squared shearMetric
      (Function.update (![1, 1, 0] : Vector3Int) 0 0) = 2 := by
    unfold metric_length_squared shearMetric
    simp [Fin.sum_univ_three, Function.update]
  refine ⟨shearMetric_symm, ha, hb, ?_⟩
  rw [ha, hb]
  norm_num

/-- C14 (amended). For a symmetric `GGT` in which direction `iDir` is orthogonal to the other
two (`GGT(iDir,j) = 0` for `j ≠ iDir`), every `iG` and every `iDir`: the quantity the functor
takes the square root of, `Gsq − GGT(iDir,iDir)·iG[iDir]²`, equals the quadratic form of
`GGT` on `iG` with its `iDir` component set to zero; `Gplane` is the square root of that
quantity when it is positive and `0` otherwise, and every recorded argument of `sqrt` is
positive. -/
theorem CoulombSlab_calc_Gplane_spec (GGT : Matrix3) (hsymm : ∀ i j, GGT i j = GGT j i)
    (iG : Vector3Int) (iDir : Fin 3) (hlfL : ℝ)
    (horth : ∀ j, j ≠ iDir → GGT iDir j = 0) :
    metric_length_squared GGT iG - GGT iDir iDir * (iG iDir : ℝ) ^ 2
        = metric_length_squared GGT (Function.update iG iDir 0) ∧
      (0 < metric_length_squared GGT iG - GGT iDir iDir * (iG iDir : ℝ) ^ 2 →
        (CoulombSlab_calc.mk iDir hlfL).Gplane iG GGT
          = Real.sqrt (metric_length_squared GGT iG - GGT iDir iDir * (iG iDir : ℝ) ^ 2)) ∧
      (¬ 0 < metric_length_squared GGT iG - GGT iDir iDir * (iG iDir : ℝ) ^ 2 →
        (CoulombSlab_calc.mk iDir hlfL).Gplane iG GGT = 0) ∧
      ((CoulombSlab_calc.mk iDir hlfL).Gplane_traced iG GGT).1
        = (CoulombSlab_calc.mk iDir hlfL).Gplane iG GGT ∧
      ∀ a ∈ ((CoulombSlab_calc.mk iDir hlfL).Gplane_traced iG GGT).2, 0 < a := by
  have hq : GGT iDir iDir * (iG iDir : ℝ) ^ 2 = GGT iDir iDir * (iG iDir : ℝ) * (iG iDir : ℝ) := by
    ring
  rw [hq]
  refine ⟨?_, fun h => ?_, fun h => ?_, ?_, ?_⟩
  · rw [slab_inplane_identity GGT hsymm iG iDir]
    have hz : ∑ j : Fin 3, (if j = iDir then 0 else GGT iDir j * (iG j : ℝ)) = 0 := by
      apply Finset.sum_eq_zero
      intro j _
      by_cases hj : j = iDir
      · simp [hj]
      · simp [hj, horth j hj]
    rw [hz, mul_zero, add_zero]
  · unfold CoulombSlab_calc.Gplane
    simp only [gt_iff_lt, h, if_true]
  · unfold CoulombSlab_calc.Gplane
    simp only [gt_iff_lt, h, if_false]
  · unfold CoulombSlab_calc.Gplane CoulombSlab_calc.Gplane_traced
    simp only
    split_ifs <;> rfl
  · intro a ha
    unfold CoulombSlab_calc.Gplane_traced at ha
    simp only at ha
    split_ifs at ha with hpos
    · simp only [List.mem_singleton] at ha
      rw [ha]
      exact hpos
    · simp at ha

/-- C14 (amended) at a concrete input: identity metric, `iDir = 0`, `iG = (1,1,0)`. -/
theorem CoulombSlab_calc_Gplane_spec_witness :
    (∀ i j, identityMetric i j = identityMetric j i) ∧
      (∀ j : Fin 3, j ≠ 0 → identityMetric 0 j = 0) ∧
      metric_length_squared identityMetric ![1, 1, 0]
          - identityMetric 0 0 * (((![1, 1, 0] : Vector3Int) 0 : ℤ) : ℝ) ^ 2
        = metric_length_squared identityMetric (Function.update (![1, 1, 0] : Vector3Int) 0 0) :=
  ⟨isSymmPSD_identityMetric.1, fun j hj => by unfold identityMetric; simp [Ne.symm hj],
    (CoulombSlab_calc_Gplane_spec identityMetric isSymmPSD_identityMetric.1 ![1, 1, 0] 0 1
      (fun j hj => by unfold identityMetric; simp [Ne.symm hj])).1⟩

/-- C15. `CoulombSlab_calc`, alternating sign: for the integer `n = iG[iDir]`,
`cos(π·n) = (−1)^n`; so at every `iG` with `Gsq ≠ 0` the slab kernel is
`4π·(1 − exp(−Gplane·hlfL))/Gsq` when `iG[iDir]` is even and
`4π·(1 + exp(−Gplane·hlfL))/Gsq` when `iG[iDir]` is odd. -/
theorem CoulombSlab_calc_alternating (iDir : Fin 3) (hlfL : ℝ) (iG : Vector3Int)
    (GGT : Matrix3) (hG : metric_length_squared GGT iG ≠ 0) :
    Real.cos (Real.pi * (iG iDir : ℝ)) = (-1 : ℝ) ^ (iG iDir) ∧
      (Even (iG iDir) →
        (CoulombSlab_calc.mk iDir hlfL).call iG GGT
          = 4 * Real.pi
              * (1 - Real.exp (-((CoulombSlab_calc.mk iDir hlfL).Gplane iG GGT) * hlfL))
              / metric_length_squared GGT iG) ∧
      (Odd (iG iDir) →
        (CoulombSlab_calc.mk iDir hlfL).call iG GGT
          = 4 * Real.pi
              * (1 + Real.exp (-((CoulombSlab_calc.mk iDir hlfL).Gplane iG GGT) * hlfL))
              / metric_length_squared GGT iG) := by
  refine ⟨?_, fun he => ?_, fun ho => ?_⟩
  · rcases Int.even_or_odd (iG iDir) with he | ho
    · rw [cos_pi_mul_int_even _ he, Even.neg_one_zpow he]
    · rw [cos_pi_mul_int_odd _ ho, Odd.neg_one_zpow ho]
  · rw [CoulombSlab_call_of_ne_zero ⟨iDir, hlfL⟩ iG GGT hG]
    simp only
    rw [cos_pi_mul_int_even _ he, mul_one]
  · rw [CoulombSlab_call_of_ne_zero ⟨iDir, hlfL⟩ iG GGT hG]
    simp only
    rw [cos_pi_mul_int_odd _ ho]
    ring

/-- C15 at a concrete input: identity metric, `iDir = 0`, `hlfL = 1`, `iG = (1,0,0)`, whose
`iDir` component is odd. -/
theorem CoulombSlab_calc_alternating_witness :
    metric_length_squared identityMetric ![1, 0, 0] ≠ 0 ∧
      Real.cos (Real.pi * (((![1, 0, 0] : Vector3Int) 0 : ℤ) : ℝ))
        = (-1 : ℝ) ^ ((![1, 0, 0] : Vector3Int) 0) := by
  have h1 : metric_length_squared identityMetric ![1, 0, 0] ≠ 0 := by
    simp [metric_length_squared_identityMetric]
  exact ⟨h1, (CoulombSlab_calc_alternating 0 1 ![1, 0, 0] identityMetric h1).1⟩

/-- C16. Exchange functors agree with the Coulomb functors away from zero: for every `iG` and
`GGT` with `kSq = Gsq > 0`, `ExchangePeriodic_calc()(kSq) = 4π/kSq =
CoulombPeriodic_calc()(iG, GGT)` and `ExchangeSpherical_calc(Rc)(kSq) =
4π·(1 − cos(Rc·√kSq))/kSq = CoulombSpherical_calc(Rc)(iG, GGT)`. -/
theorem Exchange_calc_eq_Coulomb_calc (Rc : ℝ) (iG : Vector3Int) (GGT : Matrix3)
    (hk : 0 < metric_length_squared GGT iG) :
    ExchangePeriodic_calc.mk.call (metric_length_squared GGT iG)
        = 4 * Real.pi / metric_length_squared GGT iG ∧
      4 * Real.pi / metric_length_squared GGT iG = CoulombPeriodic_calc.mk.call iG GGT ∧
      (ExchangeSpherical_calc.mk Rc).call (metric_length_squared GGT iG)
        = 4 * Real.pi * (1 - Real.cos (Rc * Real.sqrt (metric_length_squared GGT iG)))
            / metric_length_squared GGT iG ∧
      4 * Real.pi * (1 - Real.cos (Rc * Real.sqrt (metric_length_squared GGT iG)))
            / metric_length_squared GGT iG
        = (CoulombSpherical_calc.mk Rc).call iG GGT :=
  ⟨rfl, (CoulombPeriodic_call_of_ne_zero _ iG GGT hk.ne').symm, rfl,
    (CoulombSpherical_call_of_ne_zero ⟨Rc⟩ iG GGT hk.ne').symm⟩

/-- C16 at a concrete input: identity metric, `iG = (1,0,0)` (so `kSq = 1`), `Rc = 5`. -/
theorem Exchange_calc_eq_Coulomb_calc_witness :
    0 < metric_length_squared identityMetric ![1, 0, 0] ∧
      ExchangePeriodic_calc.mk.call (metric_length_squared identityMetric ![1, 0, 0])
        = 4 * Real.pi / metric_length_squared identityMetric ![1, 0, 0] := by
  have h1 : 0 < metric_length_squared identityMetric ![1, 0, 0] := by
    simp [metric_length_squared_identityMetric]
  exact ⟨h1, (Exchange_calc_eq_Coulomb_calc 5 ![1, 0, 0] identityMetric h1).1⟩

/-- C17, as stated, fails of the value the functor returns on doubles: for the symmetric
positive semi-definite metric `2^-54·I`, `iG = (1,0,0)` and `Rc = 5.5`, every operation but
`cos` is exact, `cos(5.5·2^-27)` rounds to `1 − 2^-50`, and the functor returns `64·M_PI`
(about `201.06`), which exceeds `2π·Rc²` (about `190.07`). -/
theorem CoulombSpherical_calc_bounds_counterexample :
    IsSymmPSD (scalarMetric (1 / 2 ^ 54)) ∧
      (CoulombSpherical_calc.mk 5.5).call_double ![1, 0, 0] (scalarMetric (1 / 2 ^ 54))
        (.finite (64 * M_PI)) ∧
      (∀ r : Double64,
        (CoulombSpherical_calc.mk 5.5).call_double ![1, 0, 0] (scalarMetric (1 / 2 ^ 54)) r →
          r = .finite (64 * M_PI)) ∧
      ¬ (64 * M_PI ≤ 2 * Real.pi * (5.5 : ℝ) ^ 2) := by
  have hpsd : ∀ a : ℝ, 0 ≤ a → IsSymmPSD (scalarMetric a) := by
    intro a ha
    refine ⟨fun i j => ?_, fun v => ?_⟩
    · unfold scalarMetric
      simp [eq_comm]
    · have h : quadForm (scalarMetric a) v = a * (v 0 * v 0 + v 1 * v 1 + v 2 * v 2) := by
        unfold quadForm scalarMetric
        simp [Fin.sum_univ_three]
        ring
      rw [h]
      have : 0 ≤ v 0 * v 0 + v 1 * v 1 + v 2 * v 2 := by
        nlinarith [mul_self_nonneg (v 0), mul_self_nonneg (v 1), mul_self_nonneg (v 2)]
      positivity
  refine ⟨hpsd _ (by positivity),
    (CoulombSpherical_call_double_run _).mpr rfl,
    fun r h => (CoulombSpherical_call_double_run r).mp h, ?_⟩
  have h1 : 3.14 < M_PI := by
    unfold M_PI
    norm_num
  have h2 := Real.pi_lt_d2
  intro h
  norm_num at h h1 h2
  nlinarith

/-- C17 (amended). In exact real arithmetic the sphere-truncated Coulomb kernel is bounded by
its `G = 0` value: for every symmetric positive semi-definite `GGT`, every `iG` and every real
`Rc`, `0 ≤ CoulombSpherical_calc(Rc)(iG, GGT) ≤ 2π·Rc²`, and also `≤ 8π/Gsq` when
`Gsq > 0`. -/
theorem CoulombSpherical_calc_bounds (GGT : Matrix3) (hGGT : IsSymmPSD GGT) (iG : Vector3Int)
    (Rc : ℝ) :
    0 ≤ (CoulombSpherical_calc.mk Rc).call iG GGT ∧
      (CoulombSpherical_calc.mk Rc).call iG GGT ≤ 2 * Real.pi * Rc ^ 2 ∧
      (0 < metric_length_squared GGT iG →
        (CoulombSpherical_calc.mk Rc).call iG GGT ≤ 8 * Real.pi / metric_length_squared GGT iG) := by
  have hpi : 0 < Real.pi := Real.pi_pos
  have hG : 0 ≤ metric_length_squared GGT iG := metric_length_squared_nonneg hGGT iG
  by_cases h0 : metric_length_squared GGT iG = 0
  · rw [CoulombSpherical_call_of_eq_zero ⟨Rc⟩ iG GGT h0]
    refine ⟨by positivity, le_refl _, fun h => ?_⟩
    rw [h0] at h
    exact absurd h (lt_irrefl _)
  · have hpos : 0 < metric_length_squared GGT iG := lt_of_le_of_ne hG (Ne.symm h0)
    rw [CoulombSpherical_call_of_ne_zero ⟨Rc⟩ iG GGT h0]
    simp only
    set G := metric_length_squared GGT iG with hGdef
    have hc1 : Real.cos (Rc * Real.sqrt G) ≤ 1 := Real.cos_le_one _
    have hc2 : -1 ≤ Real.cos (Rc * Real.sqrt G) := Real.neg_one_le_cos _
    have hc3 : 1 - (Rc * Real.sqrt G) ^ 2 / 2 ≤ Real.cos (Rc * Real.sqrt G) :=
      Real.one_sub_sq_div_two_le_cos
    have hsq : (Rc * Real.sqrt G) ^ 2 = Rc ^ 2 * G := by
      rw [mul_pow, Real.sq_sqrt hG]
    rw [hsq] at hc3
    refine ⟨?_, ?_, fun _ => ?_⟩
    · have : 0 ≤ 1 - Real.cos (Rc * Real.sqrt G) := by linarith
      positivity
    · rw [div_le_iff₀ hpos]
      nlinarith
    · have h1 : 0 ≤ Real.pi * (Real.cos (Rc * Real.sqrt G) + 1) :=
        mul_nonneg hpi.le (by linarith)
      exact div_le_div_of_nonneg_right (by nlinarith) hpos.le

/-- C17 (amended) at a concrete input: identity metric, `iG = (1,0,0)`, `Rc = 5`. -/
theorem CoulombSpherical_calc_bounds_witness :
    IsSymmPSD identityMetric ∧
      0 ≤ (CoulombSpherical_calc.mk 5).call ![1, 0, 0] identityMetric ∧
      (CoulombSpherical_calc.mk 5).call ![1, 0, 0] identityMetric ≤ 2 * Real.pi * (5 : ℝ) ^ 2 :=
  ⟨isSymmPSD_identityMetric,
    (CoulombSpherical_calc_bounds identityMetric isSymmPSD_identityMetric ![1, 0, 0] 5).1,
    (CoulombSpherical_calc_bounds identityMetric isSymmPSD_identityMetric ![1, 0, 0] 5).2.1⟩

/-- C18. Inversion symmetry of the Coulomb kernels: for every `GGT` and every integer index
`iG`, each of `CoulombPeriodic_calc`, `CoulombSlab_calc(iDir, hlfL)` and
`CoulombSpherical_calc(Rc)` returns the same value at `−iG` as at `iG`. -/
theorem Coulomb_calc_inversion (GGT : Matrix3) (iG : Vector3Int) (iDir : Fin 3)
    (hlfL Rc : ℝ) :
    CoulombPeriodic_calc.mk.call (-iG) GGT = CoulombPeriodic_calc.mk.call iG GGT ∧
      (CoulombSlab_calc.mk iDir hlfL).call (-iG) GGT
        = (CoulombSlab_calc.mk iDir hlfL).call iG GGT ∧
      (CoulombSpherical_calc.mk Rc).call (-iG) GGT
        = (CoulombSpherical_calc.mk Rc).call iG GGT := by
  refine ⟨?_, ?_, ?_⟩
  · unfold CoulombPeriodic_calc.call
    simp only [metric_length_squared_neg]
  · unfold CoulombSlab_calc.call
    simp only [metric_length_squared_neg, CoulombSlab_calc.Gplane_neg, Pi.neg_apply, Int.cast_neg, mul_neg, Real.cos_neg]
  · unfold CoulombSpherical_calc.call
    simp only [metric_length_squared_neg]

/-- C19, as stated, fails of the values returned on doubles: for `ω = 2^-513` and
`kSq = 2^-1020` (both non-zero doubles, `ω·ω = 2^-1026` exactly), the constructor's
`0.25/(ω·ω)` overflows to `+∞`, so `ExchangePeriodicScreened_calc(ω)(kSq)` returns
`4·M_PI·2^1020`, while `erfcTilde(kSq, ω²)` evaluates `exp(−16)` and returns an infinity or
a finite value below that. -/
theorem ExchangePeriodicScreened_calc_eq_erfcTilde_counterexample :
    IsDouble (1 / 2 ^ 513) ∧ IsDouble (1 / 2 ^ 1020) ∧
      (1 : ℝ) / 2 ^ 513 ≠ 0 ∧ (1 : ℝ) / 2 ^ 1020 ≠ 0 ∧
      (∀ w : Double64, Double64.mul (.finite (1 / 2 ^ 513)) (.finite (1 / 2 ^ 513)) w
        ↔ w = .finite (1 / 2 ^ 1026)) ∧
      (ExchangePeriodicScreened_calc.ctor_double (1 / 2 ^ 513) .posInf ∧
        ExchangePeriodicScreened_calc.call_double .posInf (1 / 2 ^ 1020)
          (.finite (4 * M_PI * 2 ^ 1020))) ∧
      (∃ re, erfcTilde_double (1 / 2 ^ 1020) (1 / 2 ^ 1026) re) ∧
      ∀ inv4 rs re : Double64,
        ExchangePeriodicScreened_calc.ctor_double (1 / 2 ^ 513) inv4 →
        ExchangePeriodicScreened_calc.call_double inv4 (1 / 2 ^ 1020) rs →
        erfcTilde_double (1 / 2 ^ 1020) (1 / 2 ^ 1026) re → rs ≠ re := by
  have hw : IsDouble ((1 / 2 ^ 513) * (1 / 2 ^ 513)) :=
    isDouble_mk 1 48 (by norm_num) (by norm_num) _ (by norm_num)
  have hwv : ((1 : ℝ) / 2 ^ 513) * (1 / 2 ^ 513) = 1 / 2 ^ 1026 := by norm_num
  refine ⟨isDouble_mk 1 561 (by norm_num) (by norm_num) _ (by norm_num),
    isDouble_mk 1 54 (by norm_num) (by norm_num) _ (by norm_num),
    by positivity, by positivity, fun w => ?_,
    (ExchangePeriodicScreened_call_double_run _ _).mpr ⟨rfl, rfl⟩,
    erfcTilde_double_run.1, fun inv4 rs re h1 h2 h3 heq => ?_⟩
  · rw [← hwv]
    exact rounds_of_isDouble hw w
  · obtain ⟨_, hrs⟩ := (ExchangePeriodicScreened_call_double_run inv4 rs).mp ⟨h1, h2⟩
    have hle := erfcTilde_double_run.2 re h3 (4 * M_PI * 2 ^ 1020) (by rw [← heq, hrs])
    have h30 : (0 : ℝ) < 1 / 2 ^ 30 := by positivity
    have h1020 : (0 : ℝ) < 2 ^ 1020 := by positivity
    nlinarith

/-- C19 (amended). In exact real arithmetic the two screened-Coulomb implementations
coincide: for `ω ≠ 0` and `kSq ≠ 0`, the constructor stores `inv4omegaSq = 0.25/ω²`,
`exp(−inv4omegaSq·kSq) = exp(−0.25·kSq/ω²)`, and
`ExchangePeriodicScreened_calc(ω)(kSq) = erfcTilde(kSq, ω²)`. -/
theorem ExchangePeriodicScreened_calc_eq_erfcTilde (omega kSq : ℝ) (homega : omega ≠ 0)
    (_hk : kSq ≠ 0) :
    (ExchangePeriodicScreened_calc.ctor omega).inv4omegaSq = 0.25 / omega ^ 2 ∧
      Real.exp (-(ExchangePeriodicScreened_calc.ctor omega).inv4omegaSq * kSq)
        = Real.exp (-0.25 * kSq / omega ^ 2) ∧
      (ExchangePeriodicScreened_calc.ctor omega).call kSq = erfcTilde kSq (omega ^ 2) := by
  have ho2 : omega ^ 2 ≠ 0 := pow_ne_zero 2 homega
  have e : -(0.25 / (omega * omega)) * kSq = -0.25 * kSq / omega ^ 2 := by
    rw [sq]
    ring
  refine ⟨?_, ?_, ?_⟩
  · unfold ExchangePeriodicScreened_calc.ctor
    simp only [sq]
  · unfold ExchangePeriodicScreened_calc.ctor
    simp only [e]
  · unfold ExchangePeriodicScreened_calc.call ExchangePeriodicScreened_calc.ctor erfcTilde
    simp only [ho2, ne_eq, not_false_eq_true, if_true, e]

/-- C19 (amended) at a concrete input: `ω = 1`, `kSq = 2`. -/
theorem ExchangePeriodicScreened_calc_eq_erfcTilde_witness :
    (1 : ℝ) ≠ 0 ∧ (2 : ℝ) ≠ 0 ∧
      (ExchangePeriodicScreened_calc.ctor 1).call 2 = erfcTilde 2 ((1 : ℝ) ^ 2) :=
  ⟨one_ne_zero, two_ne_zero,
    (ExchangePeriodicScreened_calc_eq_erfcTilde 1 2 one_ne_zero two_ne_zero).2.2⟩

/-- C20. `pureNbulk` fails only for the custom solvent: for every component name handled by
`getType`, with `type = getType(name)` and any temperature `T`, `pureNbulk` throws
"Not yet implemented." if and only if `name = CustomSolvent` (and throws nothing else); for
every other solvent name it returns a strictly positive density that does not depend on `T`,
namely the density the source tabulates for that name (listed name by name in the last part);
and for every cation or anion name it returns `1·mol/liter`. -/
theorem pureNbulk_spec (mol liter : ℝ) (name : FluidComponent.Name) (T : ℝ) :
    (FluidComponent.pureNbulk mol liter name (FluidComponent.getType name) T
          = Except.error "Not yet implemented." ↔ name = .CustomSolvent) ∧
      ((∃ e, FluidComponent.pureNbulk mol liter name (FluidComponent.getType name) T
          = Except.error e) ↔ name = .CustomSolvent) ∧
      (FluidComponent.getType name = .Solvent → name ≠ .CustomSolvent →
        ∃ v : ℝ, 0 < v ∧ ∀ T2 : ℝ,
          FluidComponent.pureNbulk mol liter name (FluidComponent.getType name) T2
            = Except.ok v) ∧
      (FluidComponent.getType name = .Cation ∨ FluidComponent.getType name = .Anion →
        FluidComponent.pureNbulk mol liter name (FluidComponent.getType name) T
          = Except.ok (1 * mol / liter)) ∧
      (∀ T2 : ℝ,
        FluidComponent.pureNbulk mol liter .H2O (FluidComponent.getType .H2O) T2
          = Except.ok 4.9383e-3 ∧
        FluidComponent.pureNbulk mol liter .CHCl3 (FluidComponent.getType .CHCl3) T2
          = Except.ok 1.109e-3 ∧
        FluidComponent.pureNbulk mol liter .CCl4 (FluidComponent.getType .CCl4) T2
          = Except.ok 9.205e-4 ∧
        FluidComponent.pureNbulk mol liter .CH3CN (FluidComponent.getType .CH3CN) T2
          = Except.ok 1.709e-3 ∧
        FluidComponent.pureNbulk mol liter .DMC (FluidComponent.getType .DMC) T2
          = Except.ok 1.059e-3 ∧
        FluidComponent.pureNbulk mol liter .EC (FluidComponent.getType .EC) T2
          = Except.ok 1.339e-3 ∧
        FluidComponent.pureNbulk mol liter .PC (FluidComponent.getType .PC) T2
          = Except.ok 1.039e-3 ∧
        FluidComponent.pureNbulk mol liter .DMF (FluidComponent.getType .DMF) T2
          = Except.ok 1.153e-3 ∧
        FluidComponent.pureNbulk mol liter .THF (FluidComponent.getType .THF) T2
          = Except.ok 1.100e-3 ∧
        FluidComponent.pureNbulk mol liter .EthylEther (FluidComponent.getType .EthylEther) T2
          = Except.ok 8.5e-4 ∧
        FluidComponent.pureNbulk mol liter .Isobutanol (FluidComponent.getType .Isobutanol) T2
          = Except.ok 9.668e-4 ∧
        FluidComponent.pureNbulk mol liter .Chlorobenzene (FluidComponent.getType .Chlorobenzene) T2
          = Except.ok 8.74e-4 ∧
        FluidComponent.pureNbulk mol liter .CarbonDisulfide (FluidComponent.getType .CarbonDisulfide) T2
          = Except.ok 1.48e-3) := by
  refine ⟨?_, ?_, ?_, ?_, fun _ => ⟨rfl, rfl, rfl, rfl, rfl, rfl, rfl, rfl, rfl, rfl, rfl, rfl,
    rfl⟩⟩
  · cases name <;>
      first
      | exact ⟨fun _ => rfl, fun _ => rfl⟩
      | exact ⟨fun h => Except.noConfusion
            (h : (Except.ok _ : Except String ℝ) = Except.error _),
          fun h => absurd h (by decide)⟩
  · cases name <;>
      first
      | exact ⟨fun _ => rfl, fun _ => ⟨_, rfl⟩⟩
      | exact ⟨fun h => h.elim fun _ h2 => Except.noConfusion
            (h2 : (Except.ok _ : Except String ℝ) = Except.error _),
          fun h => absurd h (by decide)⟩
  · intro hS hne
    cases name <;>
      first
      | exact absurd rfl hne
      | exact absurd hS (by decide)
      | exact ⟨_, by norm_num, fun _ => rfl⟩
  · intro h
    cases name <;>
      first
      | exact absurd h (by decide)
      | exact rfl

/-- C20 at concrete names: water returns its tabulated density, the custom solvent throws,
sodium returns `1·mol/liter` (the unit constants taken as `1`). -/
theorem pureNbulk_spec_witness :
    FluidComponent.pureNbulk 1 1 .H2O (FluidComponent.getType .H2O) 298
        = Except.ok 4.9383e-3 ∧
      FluidComponent.pureNbulk 1 1 .CustomSolvent (FluidComponent.getType .CustomSolvent) 298
        = Except.error "Not yet implemented." ∧
      FluidComponent.pureNbulk 1 1 .Sodium (FluidComponent.getType .Sodium) 298
        = Except.ok (1 * 1 / 1) :=
  ⟨rfl, (pureNbulk_spec 1 1 .CustomSolvent 298).1.mpr rfl,
    (pureNbulk_spec 1 1 .Sodium 298).2.2.2.1 (Or.inl rfl)⟩

/-- C21. The fall-through of `case CarbonDisulfide:` into `case CustomCation: break;` has no
effect. Run from any state, the parameter switch on `CarbonDisulfide` assigns exactly
`epsBulk = 2.641`, `epsInf = 2.641` and `pMol = 0`; so the constructor returns the
initializer-list state with those three fields changed, in which `Pvap = 0`, `sigmaBulk = 0`,
`Rvdw = 0`, `Res = 0`, there are no molecule sites and no equation of state; and the
constructor with a `break` closing the case returns the same state. -/
theorem CarbonDisulfide_fallthrough (U : FluidConstants) (T : ℝ)
    (functional : FluidComponent.Functional) :
    (∀ s : FluidComponent,
        runSwitch (fun _ => Except.error "Not yet implemented.")
            FluidComponent.Name.CarbonDisulfide (parameterSwitch U T functional) s
          = .ok { s with epsBulk := 2.641, epsInf := 2.641, pMol := 0 }) ∧
      FluidComponent.ctor U .CarbonDisulfide T functional
        = .ok { FluidComponent.initializerList .CarbonDisulfide functional 1.48e-3 with
                epsBulk := 2.641, epsInf := 2.641, pMol := 0 } ∧
      (∀ s : FluidComponent, FluidComponent.ctor U .CarbonDisulfide T functional = .ok s →
        s.epsBulk = 2.641 ∧ s.epsInf = 2.641 ∧ s.pMol = 0 ∧ s.Pvap = 0 ∧ s.sigmaBulk = 0 ∧
          s.Rvdw = 0 ∧ s.Res = 0 ∧ s.molecule.sites = [] ∧ s.eos = none ∧
          s.Nbulk = 1.48e-3 ∧ s.name = .CarbonDisulfide ∧ s.type = .Solvent ∧
          s.functional = functional) ∧
      FluidComponent.ctor_withBreak U .CarbonDisulfide T functional
        = FluidComponent.ctor U .CarbonDisulfide T functional := by
  have hctor : FluidComponent.ctor U .CarbonDisulfide T functional
      = .ok { FluidComponent.initializerList .CarbonDisulfide functional 1.48e-3 with
              epsBulk := 2.641, epsInf := 2.641, pMol := 0 } := rfl
  refine ⟨fun _ => rfl, hctor, fun s hs => ?_, rfl⟩
  rw [hctor] at hs
  injection hs with hs
  subst hs
  exact ⟨rfl, rfl, rfl, rfl, rfl, rfl, rfl, rfl, rfl, rfl, rfl, rfl, rfl⟩

end JDFTx
